import Mathlib


/-!
# tumblr-downloader: the crawl pipeline of `scraper.go` and the resolver of `file.go`

A shallow embedding of the Go sources.  Go `string`s are Lean `String`s read through
their character lists (every pattern and separator the program looks at is ASCII, so
looking at characters and looking at UTF-8 bytes agree).  Go's `int` is the 64-bit one.
Calls that leave the program (HTTP, the JSON decoder, `url.Parse`, `os.Stat`) are
answered by a `World`.  `log.Fatal` is the error branch of `Except Fatal`.
-/

namespace TumblrDownloader

/-! ## Go runtime: integers and `strconv` -/

/-- Largest value of a 64-bit Go `int`. -/
def maxInt : Int := 9223372036854775807

/-- Largest value of a `uint64`. -/
def maxUint64 : Nat := 18446744073709551615

/-- Two's-complement wrap-around of 64-bit `int` arithmetic. -/
def wrapInt (n : Int) : Int :=
  (n + 9223372036854775808) % 18446744073709551616 - 9223372036854775808

/-- The two errors of `strconv` number parsing. -/
inductive NumError where
  | ErrSyntax
  | ErrRange
deriving DecidableEq, Repr

/-- The byte loop of `strconv.ParseUint(s, 10, 64)`: `n` is the value read so far.
It stops at the first byte that is no digit (syntax error, value 0) and at the first
step that leaves the `uint64` range (range error, value `maxUint64`). -/
def parseUintLoop : List Char → Nat → Nat × Option NumError
  | [], n => (n, none)
  | c :: cs, n =>
    if c.isDigit then
      if n ≥ maxUint64 / 10 + 1 then (maxUint64, some NumError.ErrRange)
      else
        let n10 := (n * 10) % 18446744073709551616
        let n1 := (n10 + (c.toNat - 48)) % 18446744073709551616
        if n1 < n10 ∨ n1 > maxUint64 then (maxUint64, some NumError.ErrRange)
        else parseUintLoop cs n1
    else (0, some NumError.ErrSyntax)

/-- Go's `strconv.ParseUint(s, 10, 64)`. -/
def ParseUint (s : List Char) : Nat × Option NumError :=
  if s = [] then (0, some NumError.ErrSyntax) else parseUintLoop s 0

/-- Go's `strconv.ParseInt(s, 10, 0)` on a 64-bit platform: an optional sign, then
`ParseUint`; a magnitude outside the `int` range gives the nearest bound and a range
error. -/
def ParseInt (s : List Char) : Int × Option NumError :=
  match s with
  | [] => (0, some NumError.ErrSyntax)
  | c :: rest =>
    let neg : Bool := c = '-'
    let s1 := if c = '+' ∨ c = '-' then rest else c :: rest
    match ParseUint s1 with
    | (_, some NumError.ErrSyntax) => (0, some NumError.ErrSyntax)
    | (un, _) =>
      if !neg && un ≥ 9223372036854775808 then (9223372036854775807, some NumError.ErrRange)
      else if neg && un > 9223372036854775808 then (-9223372036854775808, some NumError.ErrRange)
      else (if neg then -(un : Int) else (un : Int), none)

/-- Go's `strconv.Atoi`: the value and the error.  (`Atoi` is `ParseInt(s, 10, 0)`; the
fast path newer Go versions take for short strings returns the same pairs.) -/
def Atoi (s : String) : Int × Option NumError := ParseInt s.data

/-- Decimal digits of `n`, most significant first (`fuel` bounds the number of digits). -/
def formatUintAux : Nat → Nat → List Char → List Char
  | 0, _, acc => acc
  | fuel + 1, n, acc =>
    if n < 10 then Nat.digitChar n :: acc
    else formatUintAux fuel (n / 10) (Nat.digitChar (n % 10) :: acc)

/-- Decimal rendering of a natural number. -/
def formatUint (n : Nat) : List Char := formatUintAux (n + 1) n []

/-- Go's `strconv.Itoa`. -/
def Itoa (i : Int) : String :=
  if i < 0 then String.mk ('-' :: formatUint i.natAbs) else String.mk (formatUint i.natAbs)

/-! ## Decimal identifiers -/

/-- A decimal string: one or more ASCII digits. -/
def IsDecimal (s : String) : Prop := s.data ≠ [] ∧ ∀ c ∈ s.data, c.isDigit = true

instance (s : String) : Decidable (IsDecimal s) := by
  unfold IsDecimal; infer_instance

/-- The number a digit list denotes, continuing from `n`. -/
def digitsValue (cs : List Char) (n : Nat) : Nat :=
  cs.foldl (fun a c => a * 10 + (c.toNat - 48)) n

/-- The number a decimal string denotes. -/
def decimalValue (s : String) : Nat := digitsValue s.data 0

/-! ## Go runtime: `strings`, `path`, `net/url` -/

/-- The input without the leading `l`, when it starts with `l`. -/
def stripLit : List Char → List Char → Option (List Char)
  | [], s => some s
  | _ :: _, [] => none
  | l :: ls, c :: cs => if l = c then stripLit ls cs else none

/-- Go's `strings.Replace(s, old, new, n)` for a non-empty `old`, scanning left to right:
`n < 0` replaces every occurrence, otherwise at most `n`.  `fuel` bounds the scan. -/
def replaceAux : Nat → List Char → List Char → List Char → Int → List Char
  | 0, s, _, _, _ => s
  | fuel + 1, s, old, new, n =>
    if n = 0 then s
    else
      match s with
      | [] => []
      | c :: cs =>
        match stripLit old (c :: cs) with
        | some rest => new ++ replaceAux fuel rest old new (n - 1)
        | none => c :: replaceAux fuel cs old new n

/-- Go's `strings.Replace` (for a non-empty `old`). -/
def stringsReplace (s old new : String) (n : Int) : String :=
  String.mk (replaceAux (s.data.length + 1) s.data old.data new.data n)

/-- Go's `path.Base`. -/
def pathBase (p : String) : String :=
  if p.data = [] then "."
  else
    let trimmed := (p.data.reverse.dropWhile (fun c => c = '/')).reverse
    let last := (trimmed.reverse.takeWhile (fun c => c ≠ '/')).reverse
    if last = [] then "/" else String.mk last

/-- The backtracking of `path.Clean` on a `..` element: from write index `w`, step back
while above `dotdot` and not on a slash. -/
def cleanBack (out : List Char) (dotdot : Nat) : Nat → Nat
  | 0 => 0
  | w + 1 => if w + 1 > dotdot ∧ out.getD (w + 1) ' ' ≠ '/' then cleanBack out dotdot w else w + 1

/-- The main loop of `path.Clean`: `r` is the unread input, `out` the buffer written so
far, `dotdot` the index below which `..` may not backtrack. -/
def cleanLoop : Nat → List Char → Bool → List Char → Nat → List Char
  | 0, _, _, out, _ => out
  | fuel + 1, r, rooted, out, dotdot =>
    match r with
    | [] => out
    | c :: rest =>
      if c = '/' then cleanLoop fuel rest rooted out dotdot
      else if c = '.' ∧ (rest = [] ∨ rest.head? = some '/') then
        cleanLoop fuel rest rooted out dotdot
      else if c = '.' ∧ rest.head? = some '.' ∧
          (rest.tail = [] ∨ rest.tail.head? = some '/') then
        if out.length > dotdot then
          cleanLoop fuel rest.tail rooted
            (out.take (cleanBack out dotdot (out.length - 1))) dotdot
        else if !rooted then
          let out1 := if out.length > 0 then out ++ ['/'] else out
          let out2 := out1 ++ ['.', '.']
          cleanLoop fuel rest.tail rooted out2 out2.length
        else cleanLoop fuel rest.tail rooted out dotdot
      else
        let out1 :=
          if (rooted ∧ out.length ≠ 1) ∨ (¬ rooted ∧ out.length ≠ 0) then out ++ ['/'] else out
        cleanLoop fuel ((c :: rest).dropWhile (fun x => x ≠ '/')) rooted
          (out1 ++ (c :: rest).takeWhile (fun x => x ≠ '/')) dotdot

/-- Go's `path.Clean`. -/
def pathClean (p : List Char) : List Char :=
  match p with
  | [] => ['.']
  | c :: rest =>
    let rooted : Bool := c = '/'
    let out :=
      if rooted then cleanLoop (p.length + 1) rest true ['/'] 1
      else cleanLoop (p.length + 1) (c :: rest) false [] 0
    if out = [] then ['.'] else out

/-- The buffer `path.Join` fills before cleaning. -/
def joinBuf : List Char → List String → List Char
  | buf, [] => buf
  | buf, e :: es =>
    if buf.length > 0 ∨ e.data ≠ [] then
      joinBuf ((if buf.length > 0 then buf ++ ['/'] else buf) ++ e.data) es
    else joinBuf buf es

/-- Go's `path.Join`. -/
def pathJoin (elem : List String) : String :=
  if (elem.map fun e => e.data.length).sum = 0 then ""
  else String.mk (pathClean (joinBuf [] elem))

/-- Byte order on strings (`sort.Strings`). -/
def lexLt : List Char → List Char → Bool
  | [], [] => false
  | [], _ :: _ => true
  | _ :: _, [] => false
  | a :: as, b :: bs =>
    if a.toNat < b.toNat then true
    else if b.toNat < a.toNat then false
    else lexLt as bs

/-- One insertion step of sorting the keys. -/
def insertKey (k : String) : List String → List String
  | [] => [k]
  | x :: xs => if lexLt x.data k.data then x :: insertKey k xs else k :: x :: xs

/-- The keys in increasing order. -/
def sortKeys (ks : List String) : List String := ks.foldr insertKey []

/-- Upper-case hexadecimal digit. -/
def hexDigit (n : Nat) : Char := "0123456789ABCDEF".data.getD n '0'

/-- Whether `url.QueryEscape` escapes the byte: everything but letters, digits and
`-`, `_`, `.`, `~`. -/
def shouldEscape (c : Char) : Bool :=
  if c.isAlphanum then false
  else if c = '-' ∨ c = '_' ∨ c = '.' ∨ c = '~' then false
  else true

/-- What `url.QueryEscape` writes for one character: itself, `+` for a space, or `%XX`
for each of its UTF-8 bytes. -/
def escapeChar (c : Char) : List Char :=
  if shouldEscape c then
    if c = ' ' then ['+']
    else (String.utf8EncodeChar c).flatMap fun b =>
      ['%', hexDigit (b.toNat / 16), hexDigit (b.toNat % 16)]
  else [c]

/-- Go's `url.QueryEscape`. -/
def QueryEscape (s : String) : String := String.mk (s.data.flatMap escapeChar)

/-- Go's `url.Values`: each key with its values, one entry per key. -/
structure Values where
  entries : List (String × List String)
deriving DecidableEq, Repr

/-- The values stored under a key (none when the key is absent). -/
def Values.lookup (v : Values) (key : String) : List String :=
  match v.entries.lookup key with
  | some vs => vs
  | none => []

/-- Go's `Values.Get`: the first value of the key, or the empty string. -/
def Values.Get (v : Values) (key : String) : String := (v.lookup key).headD ""

/-- Whether the map holds the key. -/
def Values.Has (v : Values) (key : String) : Bool := (v.entries.lookup key).isSome

/-- Go's `Values.Set`: the key now holds exactly this value. -/
def Values.Set (v : Values) (key value : String) : Values :=
  ⟨(v.entries.filter fun e => e.1 ≠ key) ++ [(key, [value])]⟩

/-- Go's `Values.Add`: the value is appended to those of the key. -/
def Values.Add (v : Values) (key value : String) : Values :=
  ⟨(v.entries.filter fun e => e.1 ≠ key) ++ [(key, v.lookup key ++ [value])]⟩

/-- The `key=value` pairs `Values.Encode` writes for one key. -/
def encodeKey (v : Values) (buf : List Char) (k : String) : List Char :=
  (v.lookup k).foldl
    (fun b x => (if b.length > 0 then b ++ ['&'] else b)
      ++ (QueryEscape k).data ++ ['='] ++ (QueryEscape x).data) buf

/-- Go's `Values.Encode`: keys in sorted order, `&` between pairs. -/
def Values.Encode (v : Values) : String :=
  String.mk ((sortKeys (v.entries.map Prod.fst)).foldl (encodeKey v) [])

/-- The fields of `url.URL` the program touches. -/
structure URL where
  Scheme : String
  Host : String
  Path : String
  RawQuery : String
deriving DecidableEq, Repr

/-! ## Go runtime: the four regular expressions

Go's `regexp` prefers the leftmost match and, among those, the one a backtracking
matcher finds first.  A pattern is written as a matcher in continuation-passing style:
each piece takes the matcher of what follows it. -/

/-- What follows a piece of a pattern: from the unread input to a result. -/
abbrev Cont (α : Type) := List Char → Option α

/-- A literal. -/
def lit {α : Type} : List Char → Cont α → Cont α
  | [], k, s => k s
  | _ :: _, _, [] => none
  | l :: ls, k, c :: cs => if l = c then lit ls k cs else none

/-- Greedy `x?`: with `x` first, without it when that fails. -/
def opt {α : Type} (m : Cont α → Cont α) (k : Cont α) : Cont α :=
  fun s => (m k s).orElse fun _ => k s

/-- Greedy `c*` over a character class. -/
def star {α : Type} (p : Char → Bool) (k : Cont α) : Cont α
  | [] => k []
  | c :: cs => if p c then (star p k cs).orElse fun _ => k (c :: cs) else k (c :: cs)

/-- Greedy `c+` over a character class. -/
def plus {α : Type} (p : Char → Bool) (k : Cont α) : Cont α
  | [] => none
  | c :: cs => if p c then star p k cs else none

/-- Counted repetition `c{n}` over a character class. -/
def times {α : Type} : Nat → (Char → Bool) → Cont α → Cont α
  | 0, _, k, s => k s
  | _ + 1, _, _, [] => none
  | n + 1, p, k, c :: cs => if p c then times n p k cs else none

/-- The class `\w`: ASCII letters, digits and the underscore. -/
def isWordChar (c : Char) : Bool := c.isAlphanum || c == '_'

/-- The class `.`: anything but a newline. -/
def isDot (c : Char) : Bool := c != '\n'

/-- The text between two positions, each given by the input still unread there. -/
def span (start stop : List Char) : String := String.mk (start.take (start.length - stop.length))

/-- A compiled pattern: matching at the start of the input gives the input left after
the match and the submatches, whole match first. -/
structure Regexp where
  matchAt : List Char → Option (List Char × List String)

/-- The leftmost match in the input. -/
def Regexp.leftmost (re : Regexp) : List Char → Option (List Char × List String)
  | [] => re.matchAt []
  | c :: cs => (re.matchAt (c :: cs)).orElse fun _ => re.leftmost cs

/-- Go's `Regexp.FindStringSubmatch`: the leftmost match and its groups, or nil. -/
def Regexp.FindStringSubmatch (re : Regexp) (s : String) : Option (List String) :=
  (re.leftmost s.data).map Prod.snd

/-- Successive leftmost matches, each search starting where the last match ended
(`fuel` bounds their number; the patterns here match no empty text). -/
def Regexp.allFrom (re : Regexp) : Nat → List Char → List (List String)
  | 0, _ => []
  | fuel + 1, s =>
    match re.leftmost s with
    | none => []
    | some (rest, groups) => groups :: re.allFrom fuel rest

/-- Go's `Regexp.FindAllString(s, -1)`: every successive match. -/
def Regexp.FindAllString (re : Regexp) (s : String) : List String :=
  (re.allFrom (s.data.length + 1) s.data).map fun groups => groups.headD ""

/-- Go's `Regexp.FindAllStringSubmatch(s, -1)`: every successive match with its groups.
The program never calls it; it counts the references a text holds. -/
def Regexp.FindAllStringSubmatch (re : Regexp) (s : String) : List (List String) :=
  re.allFrom (s.data.length + 1) s.data

/-- The double quote. -/
def dquote : Char := Char.ofNat 34

/-- The backslash. -/
def backslash : Char := Char.ofNat 92

/-- The pattern `(http:\/\/\d{2}\.media\.tumblr\.com\/\w{32}\/tumblr_inline_\w+\.\w+)`. -/
def inlineSearch : Regexp where
  matchAt s :=
    lit "http://".data (times 2 Char.isDigit (lit ".media.tumblr.com/".data
      (times 32 isWordChar (lit "/tumblr_inline_".data (plus isWordChar (lit ".".data
        (plus isWordChar fun e => some (e, [span s e, span s e])))))))) s

/-- The pattern `"hdUrl":"(.*\/tumblr_\w+)"`. -/
def videoSearch : Regexp where
  matchAt s :=
    lit ([dquote] ++ "hdUrl".data ++ [dquote, ':', dquote]) (fun g0 =>
      star isDot (lit "/tumblr_".data (plus isWordChar fun g1 =>
        lit [dquote] (fun e => some (e, [span s e, span g0 g1])) g1)) g0) s

/-- The pattern `source src="(.*tumblr_\w+)(?:\/\d+)?" type`. -/
def altVideoSearch : Regexp where
  matchAt s :=
    lit ("source src=".data ++ [dquote]) (fun g0 =>
      star isDot (lit "tumblr_".data (plus isWordChar fun g1 =>
        opt (fun k => lit "/".data (plus Char.isDigit k))
          (lit ([dquote] ++ " type".data) fun e => some (e, [span s e, span g0 g1])) g1)) g0) s

/-- The pattern `href="https?:\/\/(?:www\.)?gfycat\.com\/(\w+)`. -/
def gfycatSearch : Regexp where
  matchAt s :=
    lit ("href=".data ++ [dquote] ++ "http".data) (opt (lit "s".data) (lit "://".data
      (opt (lit "www.".data) (lit "gfycat.com/".data fun g0 =>
        plus isWordChar (fun e => some (e, [span s e, span g0 e])) g0)))) s

/-! ## Data model (`scraper.go`, `file.go`) -/

/-- A post of the tumblr API (`type Post struct`).  `PostType` is the field `Type`. -/
inductive Post where
  | mk (ID : String) (PostType : String) (PhotoURL : String) (Photos : List Post)
      (UnixTimestamp : Int) (PhotoCaption : String) (RegularBody : String) (Answer : String)
      (Video : String) (VideoCaption : String)

/-- Field `ID`. -/
def Post.ID : Post → String
  | .mk x _ _ _ _ _ _ _ _ _ => x

/-- Field `Type`. -/
def Post.PostType : Post → String
  | .mk _ x _ _ _ _ _ _ _ _ => x

/-- Field `PhotoURL`. -/
def Post.PhotoURL : Post → String
  | .mk _ _ x _ _ _ _ _ _ _ => x

/-- Field `Photos`. -/
def Post.Photos : Post → List Post
  | .mk _ _ _ x _ _ _ _ _ _ => x

/-- Field `UnixTimestamp`. -/
def Post.UnixTimestamp : Post → Int
  | .mk _ _ _ _ x _ _ _ _ _ => x

/-- Field `PhotoCaption`. -/
def Post.PhotoCaption : Post → String
  | .mk _ _ _ _ _ x _ _ _ _ => x

/-- Field `RegularBody`. -/
def Post.RegularBody : Post → String
  | .mk _ _ _ _ _ _ x _ _ _ => x

/-- Field `Answer`. -/
def Post.Answer : Post → String
  | .mk _ _ _ _ _ _ _ x _ _ => x

/-- Field `Video`. -/
def Post.Video : Post → String
  | .mk _ _ _ _ _ _ _ _ x _ => x

/-- Field `VideoCaption`. -/
def Post.VideoCaption : Post → String
  | .mk _ _ _ _ _ _ _ _ _ x => x

/-- The inner struct of `Gfy`. -/
structure GfyItem where
  Mp4Url : String
  WebmURL : String
deriving DecidableEq, Repr

/-- The Gfycat response (`type Gfy struct`). -/
structure Gfy where
  GfyItem : GfyItem
deriving DecidableEq, Repr

/-- The source being crawled (`*blog`): the fields `scrape` reads.  Its progress bar's
`Total` is mutable and lives in the shared state. -/
structure blog where
  name : String
  tag : String
  lastPostID : String
deriving DecidableEq, Repr

/-- The package-level settings the two files read; they are declared elsewhere in the
repository. -/
structure Config where
  ignorePhotos : Bool
  ignoreVideos : Bool
  updateMode : Bool
  downloadDirectory : String
deriving DecidableEq, Repr

/-- One `http.Get` exchange with the resolver: the number of transport errors before
the first response, and the body `ioutil.ReadAll` reads from it (`none` when reading
fails). -/
structure HttpExchange where
  failures : Nat
  body : Option String
deriving DecidableEq, Repr

/-- Everything outside the program that the two files call. -/
structure World where
  /-- The result of `url.Parse`; `none` is a parse error. -/
  urlParse : String → Option URL
  /-- The exchange a GET of the resolver URL runs into. -/
  gfycat : String → HttpExchange
  /-- The result of `json.Unmarshal` into a `Gfy`; `none` is an error. -/
  unmarshalGfy : String → Option Gfy
  /-- The result of `json.Unmarshal` into a `Blog`: whether it reported an error, and the
  posts the `Blog` holds afterwards. -/
  unmarshalBlog : String → Bool × List Post
  /-- Whether `os.Stat` of the path returns without error. -/
  stat : String → Bool

/-- The outcome `log.Fatal` leaves: the process has exited. -/
inductive Fatal where
  | exit
deriving DecidableEq, Repr

deriving instance DecidableEq for Except

/-- Modelled from the spec: `checkFatalError`, declared outside the two source files;
the spec has a fatal error terminate the whole process.  The argument is the result of
the call whose error is checked, `none` when that error is not nil. -/
def checkFatalError {α : Type} (r : Option α) : Except Fatal α :=
  match r with
  | none => Except.error Fatal.exit
  | some a => Except.ok a

/-- The value of a `(value, error)` pair when the error is nil. -/
def valueOf {α ε : Type} (r : α × Option ε) : Option α :=
  match r.2 with
  | none => some r.1
  | some _ => none

/-! ## `file.go`: the resolver -/

/-- The format `gfyRequest` filled in with the slug. -/
def gfyRequest (slug : String) : String := "https://gfycat.com/cajax/get/" ++ slug

/-- The retry loop of `GetGfycatURL`: every transport error is logged and the request
repeated; the first response ends the loop. -/
def getUntilResponse : Nat → Option String → Option String
  | 0, body => body
  | failures + 1, body => getUntilResponse failures body

/-- `GetGfycatURL` (`file.go`). -/
def GetGfycatURL (w : World) (slug : String) : Except Fatal String := do
  let gfyURL := gfyRequest slug
  let resp := getUntilResponse (w.gfycat gfyURL).failures (w.gfycat gfyURL).body
  let gfyData ← checkFatalError resp
  if gfyData ≠ "Not Found" then do
    let gfy ← checkFatalError (w.unmarshalGfy gfyData)
    pure gfy.GfyItem.Mp4Url
  else
    pure ""

/-- A downloaded file (`type File struct`), without its user. -/
structure File where
  URL : String
  UnixTimestamp : Int
  Filename : String
deriving DecidableEq, Repr

/-- `newFile` (`file.go`). -/
def newFile (URL : String) : File := ⟨URL, 0, pathBase URL⟩

/-- The format `%02d` for a non-negative number. -/
def twoDigits (n : Nat) : String :=
  if n < 10 then String.mk ('0' :: formatUint n) else String.mk (formatUint n)

/-- The loop of `getGfycatFiles` over the submatches, `i` counting from the first. -/
def gfycatFilesLoop (w : World) (slug : String) :
    Nat → List String → List File → Except Fatal (List File)
  | _, [], files => pure files
  | i, v :: vs, files => do
    let url ← GetGfycatURL w v
    if url ≠ "" then
      let gfyFile := newFile url
      let gfyFile :=
        if slug ≠ "" then { gfyFile with Filename := slug ++ "_gfycat_" ++ twoDigits (i + 1) ++ ".mp4" }
        else gfyFile
      gfycatFilesLoop w slug (i + 1) vs (files ++ [gfyFile])
    else gfycatFilesLoop w slug (i + 1) vs files

/-- `getGfycatFiles` (`file.go`). -/
def getGfycatFiles (w : World) (b slug : String) : Except Fatal (List File) :=
  match gfycatSearch.FindStringSubmatch b with
  | some regexResult => gfycatFilesLoop w slug 0 (regexResult.drop 1) []
  | none => pure []

/-! ## `scraper.go`: extraction -/

/-- `downloadTypeWrapper`: run `fn` when `b` holds.  The closure passed in the source
appends to the enclosing `URLs`; here it takes and returns them. -/
def downloadTypeWrapper (b : Bool) (fn : List String → Except Fatal (List String))
    (URLs : List String) : Except Fatal (List String) :=
  if b then fn URLs else pure URLs

/-- The loop `for _, v := range regexResult[1:]` that appends `GetGfycatURL(v)`. -/
def appendGfycatURLs (w : World) : List String → List String → Except Fatal (List String)
  | URLs, [] => pure URLs
  | URLs, v :: vs => do
    let u ← GetGfycatURL w v
    appendGfycatURLs w (URLs ++ [u]) vs

/-- `parseDataForFiles` (`scraper.go`). -/
def parseDataForFiles (cfg : Config) (w : World) (post : Post) : Except Fatal (List String) :=
  if post.PostType = "photo" then do
    let URLs ← downloadTypeWrapper (!cfg.ignorePhotos) (fun URLs =>
      if post.Photos.length = 0 then pure (URLs ++ [post.PhotoURL])
      else pure (URLs ++ post.Photos.map Post.PhotoURL)) []
    downloadTypeWrapper (!cfg.ignoreVideos) (fun URLs =>
      match gfycatSearch.FindStringSubmatch post.PhotoCaption with
      | some regexResult => appendGfycatURLs w URLs (regexResult.drop 1)
      | none => pure URLs) URLs
  else if post.PostType = "answer" then
    downloadTypeWrapper (!cfg.ignorePhotos)
      (fun _ => pure (inlineSearch.FindAllString post.Answer)) []
  else if post.PostType = "regular" then
    downloadTypeWrapper (!cfg.ignorePhotos)
      (fun _ => pure (inlineSearch.FindAllString post.RegularBody)) []
  else if post.PostType = "video" then
    downloadTypeWrapper (!cfg.ignoreVideos) (fun URLs =>
      match (videoSearch.FindStringSubmatch post.Video).orElse
          (fun _ => altVideoSearch.FindStringSubmatch post.Video) with
      | none => pure URLs
      | some regextest =>
        let videoURL := stringsReplace (regextest.getD 1 "") (String.mk [backslash]) "" (-1)
        let videoURL := videoURL ++ ".mp4"
        let URLs := URLs ++ [videoURL]
        match gfycatSearch.FindStringSubmatch post.VideoCaption with
        | some regextest2 => appendGfycatURLs w URLs (regextest2.drop 1)
        | none => pure URLs) []
  else pure []

/-- The query `makeTumblrURL` builds in `vals`: `num`, `start` and, for a tagged source,
`tagged`.  The offset is computed in `int` arithmetic. -/
def tumblrValues (user : blog) (i : Int) : Values :=
  let vals : Values := ⟨[]⟩
  let vals := vals.Set "num" "50"
  let vals := vals.Add "start" (Itoa (wrapInt (wrapInt (i - 1) * 50)))
  if user.tag ≠ "" then vals.Add "tagged" user.tag else vals

/-- `makeTumblrURL` (`scraper.go`). -/
def makeTumblrURL (w : World) (user : blog) (i : Int) : Except Fatal URL := do
  let base := "http://" ++ user.name ++ ".tumblr.com/api/read/json"
  let tumblrURL ← checkFatalError (w.urlParse base)
  pure { tumblrURL with RawQuery := (tumblrValues user i).Encode }

/-! ## `scraper.go`: the state `scrape` shares between its goroutines -/

/-- A download task (`Image`): source name, URL, timestamp.  (Its fourth field points at
the source's progress bar.) -/
structure Image where
  User : String
  URL : String
  UnixTimestamp : Int
deriving DecidableEq, Repr

/-- What the crawl has done so far, oldest first.  The program does not read this
record; it is kept to state properties of executions. -/
inductive Event where
  /-- `http.Get` was called for page index `i`; `page` holds the posts of the page it
  returned, and is `none` after a transport error. -/
  | fetch (i : Int) (url : URL) (page : Option (List Post))
  /-- The locked cursor update ran for the post. -/
  | update (post : Post)
  /-- `once.Do(closeDone)` closed `done`. -/
  | stop
  /-- `parseDataForFiles` returned the URLs of the post. -/
  | extract (post : Post)

/-- The state the goroutines of one `scrape` share.  The three counters count one event
at a time from where they start, which keeps them far inside their machine types; they
are natural numbers and an integer here. -/
structure Shared where
  /-- The cursor `highestID`, guarded by `IDMutex`. -/
  highestID : String
  /-- Whether the channel `done` is closed. -/
  done : Bool
  /-- What has been sent on `imageChannel`, oldest first. -/
  imageChannel : List Image
  /-- The global skip counter. -/
  alreadyExists : Nat
  /-- The global discovered counter. -/
  totalFound : Nat
  /-- The expected-work counter `user.progressBar.Total`. -/
  progressTotal : Int
  /-- The record of events. -/
  hist : List Event

/-- The locked block of the extraction loop: the cursor becomes the post's identifier
unless the cursor parses to a strictly larger number.  Parse errors are dropped, as in
the source. -/
def updateHighestID (highestID : String) (post : Post) : String :=
  let postIDint := (Atoi post.ID).1
  let highestIDint := (Atoi highestID).1
  if postIDint ≥ highestIDint then post.ID else highestID

/-- The cursor update as a step of the shared state. -/
def applyUpdate (sh : Shared) (post : Post) : Shared :=
  { sh with highestID := updateHighestID sh.highestID post, hist := sh.hist ++ [Event.update post] }

/-- The call `once.Do(closeDone)`: the first call closes `done`, later ones do nothing. -/
def fireStop (sh : Shared) : Shared :=
  if sh.done then sh else { sh with done := true, hist := sh.hist ++ [Event.stop] }

/-- The body of the loop over the URLs of a post: a file already at
`downloadDirectory/user.name/base(URL)` counts as skipped, anything else is counted and
sent. -/
def enqueueURL (cfg : Config) (w : World) (user : blog) (post : Post) (sh : Shared)
    (URL : String) : Shared :=
  let i : Image := ⟨user.name, URL, post.UnixTimestamp⟩
  let filename := pathBase i.URL
  let pathname := pathJoin [cfg.downloadDirectory, user.name, filename]
  if w.stat pathname then { sh with alreadyExists := sh.alreadyExists + 1 }
  else
    { sh with
      progressTotal := sh.progressTotal + 1
      totalFound := sh.totalFound + 1
      imageChannel := sh.imageChannel ++ [i] }

/-- The loop over the URLs of a post. -/
def enqueueURLs (cfg : Config) (w : World) (user : blog) (post : Post) (sh : Shared)
    (URLs : List String) : Shared :=
  URLs.foldl (enqueueURL cfg w user post) sh

/-- The part of the loop body after the stop test: extract the URLs of the post and
filter them into the queue. -/
def extractPost (cfg : Config) (w : World) (user : blog) (sh : Shared) (post : Post) :
    Except Fatal Shared := do
  let URLs ← parseDataForFiles cfg w post
  pure (enqueueURLs cfg w user post { sh with hist := sh.hist ++ [Event.extract post] } URLs)

/-- The stop test of the loop body. -/
def stopTest (cfg : Config) (lastPostIDint : Int) (post : Post) : Bool :=
  decide ((Atoi post.ID).1 ≤ lastPostIDint) && cfg.updateMode

/-- The loop `for _, post := range blog.Posts` of the extraction goroutine. -/
def postLoop (cfg : Config) (w : World) (user : blog) (lastPostIDint : Int) :
    List Post → Shared → Except Fatal Shared
  | [], sh => pure sh
  | post :: rest, sh =>
    let sh1 := applyUpdate sh post
    if stopTest cfg lastPostIDint post then pure (fireStop sh1)
    else do
      let sh2 ← extractPost cfg w user sh1 post
      postLoop cfg w user lastPostIDint rest sh2

/-- The extraction goroutine `scrape` starts for a page, run on its own from a shared
state. -/
def extractionTask (cfg : Config) (w : World) (user : blog) (posts : List Post)
    (sh : Shared) : Except Fatal Shared := do
  let lastPostIDint ← checkFatalError (valueOf (Atoi user.lastPostID))
  postLoop cfg w user lastPostIDint posts sh

/-! ## `scraper.go`: `scrape` as interleaved steps -/

/-- Where an extraction goroutine stands. -/
inductive TaskPc where
  /-- About to parse `user.lastPostID`. -/
  | start (posts : List Post)
  /-- At the head of the loop over the posts still to do. -/
  | update (lastPostIDint : Int) (posts : List Post)
  /-- The cursor update of `post` is done; the stop test comes next. -/
  | check (lastPostIDint : Int) (post : Post) (rest : List Post)
  /-- In the loop over the URLs of `post`, `URLs` still to do. -/
  | send (lastPostIDint : Int) (post : Post) (URLs : List String) (rest : List Post)
  /-- Returned (`wg.Done` has run). -/
  | exited

/-- Whether the goroutine has returned. -/
def TaskPc.isExited : TaskPc → Bool
  | .exited => true
  | _ => false

/-- One step of an extraction goroutine on the shared state; `none` once it has
returned. -/
def taskStep (cfg : Config) (w : World) (user : blog) (sh : Shared) :
    TaskPc → Option (Except Fatal (Shared × TaskPc))
  | .start posts =>
    some ((checkFatalError (valueOf (Atoi user.lastPostID))).map fun l => (sh, TaskPc.update l posts))
  | .update _ [] => some (pure (sh, TaskPc.exited))
  | .update l (post :: rest) => some (pure (applyUpdate sh post, TaskPc.check l post rest))
  | .check l post rest =>
    if stopTest cfg l post then some (pure (fireStop sh, TaskPc.exited))
    else
      some ((parseDataForFiles cfg w post).map fun URLs =>
        ({ sh with hist := sh.hist ++ [Event.extract post] }, TaskPc.send l post URLs rest))
  | .send l _ [] rest => some (pure (sh, TaskPc.update l rest))
  | .send l post (URL :: URLs) rest =>
    some (pure (enqueueURL cfg w user post sh URL, TaskPc.send l post URLs rest))
  | .exited => none

/-- Where the paging goroutine stands. -/
inductive LoopPc where
  /-- At the outer `select` of `shouldFinishScraping`. -/
  | check
  /-- Blocked in the inner `select`, on `done` and the limiter. -/
  | wait
  /-- The limiter's tick is received and `shouldFinishScraping` has returned false;
  `makeTumblrURL`, `showProgress` and `http.Get` come next. -/
  | request
  /-- The loop is left; the deferred `wg.Wait` is pending. -/
  | drain
  /-- The deferred calls have run: queue closed, cursor persisted. -/
  | finished
deriving DecidableEq, Repr

/-- What an `http.Get` of a page comes back with. -/
inductive FetchOutcome where
  | transportError
  | response (contents : String)
deriving DecidableEq, Repr

/-- The two `strings.Replace` calls on a response body: the first occurrence of the
wrapper and every semicolon are removed. -/
def stripWrapper (contents : String) : String :=
  let contents := stringsReplace contents "var tumblr_api_read = " "" 1
  stringsReplace contents ";" "" (-1)

/-- Whether `json.Unmarshal` of a response body reports an error. -/
def decodeError (w : World) (contents : String) : Bool :=
  (w.unmarshalBlog (stripWrapper contents)).1

/-- The posts `blog.Posts` holds after `json.Unmarshal` of a response body, with or
without an error. -/
def decodePage (w : World) (contents : String) : List Post :=
  (w.unmarshalBlog (stripWrapper contents)).2

/-- Modelled from the spec: `checkError`, declared outside the two source files; the
spec has the error logged and the crawl go on.  The argument tells whether the error is
not nil; the result is the number of errors logged so far. -/
def checkError (err : Bool) (logged : Nat) : Nat :=
  if err then logged + 1 else logged

/-- The state of one `scrape`.  The page index moves by one per request from 1, which
keeps it far inside the `int` range; it is an unbounded integer here. -/
structure Crawl where
  /-- The page index `i`. -/
  i : Int
  /-- Where the paging goroutine stands. -/
  pc : LoopPc
  /-- The shared state. -/
  sh : Shared
  /-- The extraction goroutines, in the order they were started. -/
  tasks : List TaskPc
  /-- How many errors the paging goroutine has logged and passed over. -/
  logged : Nat
  /-- Whether `log.Fatal` has ended the process. -/
  crashed : Bool
  /-- Whether `imageChannel` is closed. -/
  closed : Bool
  /-- The cursor the deferred call has handed to `updateDatabase` (declared elsewhere in
  the repository) to be persisted; `none` before that call. -/
  persisted : Option String

/-- What the scheduler lets happen next. -/
inductive Sched where
  /-- The paging goroutine runs the outer `select`. -/
  | loopCheck
  /-- The inner `select` receives from `done`. -/
  | loopSeeDone
  /-- The inner `select` receives from the limiter. -/
  | loopTick
  /-- The paging goroutine builds the address and calls `http.Get`, with this outcome,
  and runs the rest of the iteration. -/
  | loopGet (o : FetchOutcome)
  /-- `wg.Wait` returns and the remaining deferred calls run. -/
  | loopDrain
  /-- The `k`-th extraction goroutine takes a step. -/
  | task (k : Nat)
deriving DecidableEq, Repr

/-- The state `scrape` starts from (the two global counters are shown from zero). -/
def Crawl.init : Crawl :=
  { i := 1, pc := LoopPc.check,
    sh := { highestID := "0", done := false, imageChannel := [], alreadyExists := 0,
            totalFound := 0, progressTotal := 0, hist := [] },
    tasks := [], logged := 0, crashed := false, closed := false, persisted := none }

/-- One request of the paging loop, from `makeTumblrURL` to the end of the iteration.
Between the call of `http.Get` and the end of the iteration the paging goroutine reads
nothing the extraction goroutines write, so the request and what follows it are one
step. -/
def fetchStep (w : World) (user : blog) (c : Crawl) (o : FetchOutcome) : Crawl :=
  match makeTumblrURL w user c.i with
  | Except.error _ => { c with crashed := true }
  | Except.ok tumblrURL =>
    match o with
    | FetchOutcome.transportError =>
      { c with
        sh := { c.sh with hist := c.sh.hist ++ [Event.fetch c.i tumblrURL none] }
        logged := c.logged + 1
        i := c.i - 1 + 1
        pc := LoopPc.check }
    | FetchOutcome.response contents =>
      let posts := decodePage w contents
      let logged := checkError (decodeError w contents) c.logged
      let sh := { c.sh with hist := c.sh.hist ++ [Event.fetch c.i tumblrURL (some posts)] }
      if posts.length = 0 then { c with sh := sh, logged := logged, pc := LoopPc.drain }
      else
        { c with
          sh := sh
          logged := logged
          tasks := c.tasks ++ [TaskPc.start posts]
          i := c.i + 1
          pc := LoopPc.check }

/-- One scheduled step of `scrape`; `none` when the step cannot happen in this state.
Nothing happens after a fatal error. -/
def step (cfg : Config) (w : World) (user : blog) (c : Crawl) : Sched → Option Crawl
  | Sched.loopCheck =>
    if c.crashed = false ∧ c.pc = LoopPc.check then
      some (if c.sh.done then { c with pc := LoopPc.drain } else { c with pc := LoopPc.wait })
    else none
  | Sched.loopSeeDone =>
    if c.crashed = false ∧ c.pc = LoopPc.wait ∧ c.sh.done = true then
      some { c with pc := LoopPc.drain }
    else none
  | Sched.loopTick =>
    if c.crashed = false ∧ c.pc = LoopPc.wait then some { c with pc := LoopPc.request }
    else none
  | Sched.loopGet o =>
    if c.crashed = false ∧ c.pc = LoopPc.request then some (fetchStep w user c o) else none
  | Sched.loopDrain =>
    if c.crashed = false ∧ c.pc = LoopPc.drain ∧ c.tasks.all TaskPc.isExited = true then
      some { c with closed := true, persisted := some c.sh.highestID, pc := LoopPc.finished }
    else none
  | Sched.task k =>
    if c.crashed = false then
      match c.tasks[k]? with
      | none => none
      | some t =>
        match taskStep cfg w user c.sh t with
        | none => none
        | some (Except.error _) => some { c with crashed := true }
        | some (Except.ok (sh, t1)) => some { c with sh := sh, tasks := c.tasks.set k t1 }
    else none

/-- The state after a schedule, when every step of it can happen. -/
def run (cfg : Config) (w : World) (user : blog) : Crawl → List Sched → Option Crawl
  | c, [] => some c
  | c, e :: es =>
    match step cfg w user c e with
    | none => none
    | some c1 => run cfg w user c1 es

/-- The requests with what each returned (`none`: a transport error), oldest first. -/
def fetchedPages : List Event → List (Int × Option (List Post))
  | [] => []
  | Event.fetch i _ page :: es => (i, page) :: fetchedPages es
  | _ :: es => fetchedPages es

/-- The page indices requested, oldest first. -/
def fetchedIndices (hist : List Event) : List Int := (fetchedPages hist).map Prod.fst

/-- The posts whose cursor update has run, oldest first. -/
def updatedPosts : List Event → List Post
  | [] => []
  | Event.update p :: es => p :: updatedPosts es
  | _ :: es => updatedPosts es

/-- The posts whose URLs were extracted, oldest first. -/
def extractedPosts : List Event → List Post
  | [] => []
  | Event.extract p :: es => p :: extractedPosts es
  | _ :: es => extractedPosts es

/-- How often the stop signal fired. -/
def stopCount : List Event → Nat
  | [] => 0
  | Event.stop :: es => stopCount es + 1
  | _ :: es => stopCount es

/-! ## The specification's words, for comparison with the code -/

/-- The primary photo URLs of a photo post as the specification has them: the single
direct URL when the post has no gallery, otherwise one URL per gallery entry, in gallery
order. -/
def primaryPhotoURLs (post : Post) : List String :=
  match post.Photos with
  | [] => [post.PhotoURL]
  | gallery => gallery.map Post.PhotoURL

/-- The short-link references of a caption, left to right: the identifier of every match
of `gfycatSearch`. -/
def gfycatReferences (caption : String) : List String :=
  (gfycatSearch.FindAllStringSubmatch caption).map fun groups => groups.getD 1 ""

/-- What the caption scan of `parseDataForFiles` appends to an empty list. -/
def captionURLs (w : World) (caption : String) : Except Fatal (List String) :=
  match gfycatSearch.FindStringSubmatch caption with
  | some regexResult => appendGfycatURLs w [] (regexResult.drop 1)
  | none => pure []

/-- A decimal identifier an `int` can hold. -/
def InIntRange (s : String) : Prop := IsDecimal s ∧ (decimalValue s : Int) ≤ maxInt

instance (s : String) : Decidable (InIntRange s) := by
  unfold InIntRange; infer_instance

/-- The extraction of one page as the specification words it, for a test `newer` of a
post against the last-known cursor: the posts of the longest leading run of newer posts
are, in order, entered into the cursor and extracted; the first post that is not newer,
if there is one, is entered into the cursor and fires the stop signal; nothing after it
is touched. -/
def incrementalPage (cfg : Config) (w : World) (user : blog) (newer : Post → Bool)
    (posts : List Post) (sh : Shared) : Except Fatal Shared :=
  ((posts.takeWhile newer).foldlM (fun s p => extractPost cfg w user (applyUpdate s p) p) sh).map
    fun s =>
      match posts.dropWhile newer with
      | [] => s
      | q :: _ => fireStop (applyUpdate s q)

/-- The tasks one extracted post adds to the queue: one for each of its URLs with no file
at the destination, in order. -/
def newImages (cfg : Config) (w : World) (user : blog) (post : Post) : List Image :=
  match parseDataForFiles cfg w post with
  | Except.error _ => []
  | Except.ok URLs =>
    (URLs.filter fun URL =>
      !w.stat (pathJoin [cfg.downloadDirectory, user.name, pathBase URL])).map
      fun URL => ⟨user.name, URL, post.UnixTimestamp⟩

/-- The order of page requests as the specification words it, for a log of requests and
a first index `i`: every request carries the index expected at its turn; after a
transport failure the same index is expected again, after a page with posts the next
one, and after a page without posts no request follows. -/
def PagingOrder : Int → List (Int × Option (List Post)) → Prop
  | _, [] => True
  | i, (j, none) :: rest => j = i ∧ PagingOrder i rest
  | i, (j, some []) :: rest => j = i ∧ rest = []
  | i, (j, some (_ :: _)) :: rest => j = i ∧ PagingOrder (i + 1) rest

/-- The index the next request carries after a log of requests that started at `i`;
`none` once a page without posts has been fetched. -/
def nextIndex : Int → List (Int × Option (List Post)) → Option Int
  | i, [] => some i
  | i, (_, none) :: rest => nextIndex i rest
  | _, (_, some []) :: _ => none
  | i, (_, some (_ :: _)) :: rest => nextIndex (i + 1) rest

/-- The posts a goroutine has still to enter into the cursor. -/
def TaskPc.pending : TaskPc → List Post
  | .start posts => posts
  | .update _ posts => posts
  | .check _ _ rest => rest
  | .send _ _ _ rest => rest
  | .exited => []

/-- The posts of all pages fetched so far, in page order. -/
def dispatchedPosts (hist : List Event) : List Post :=
  (fetchedPages hist).flatMap fun x => x.2.getD []

/-! ## Concrete inputs for the closed statements -/

/-- A post with the given identifier and nothing else filled in, as decoded from a
record that only carries an `id`. -/
def postWithID (id : String) : Post := Post.mk id "" "" [] 0 "" "" "" "" ""

/-- A photo post with one direct URL and a caption. -/
def photoPost (id url caption : String) : Post := Post.mk id "photo" url [] 0 caption "" "" "" ""

/-- A caption with two short-link references. -/
def twoLinkCaption : String :=
  String.mk ("<a href=".data ++ [dquote] ++ "https://gfycat.com/FirstClip".data ++ [dquote]
    ++ ">a</a> <a href=".data ++ [dquote] ++ "http://www.gfycat.com/SecondClip".data
    ++ [dquote] ++ ">b</a>".data)

/-- A caption with one short-link reference. -/
def oneLinkCaption : String :=
  String.mk ("<a href=".data ++ [dquote] ++ "https://gfycat.com/GoneClip".data ++ [dquote]
    ++ ">a</a>".data)

/-- A world for the closed statements: every address parses, the resolver knows the clips
`FirstClip` and `SecondClip` and answers `Not Found` for anything else, the page decoder
reads the sample pages, keeps the two posts of a page whose first identifier is a number
(reporting the type error) and nothing of any other text, and only
`downloads/blog/old.jpg` exists on disk. -/
def sampleWorld : World where
  urlParse s := some ⟨"http", s, "", ""⟩
  gfycat url :=
    if url = "https://gfycat.com/cajax/get/FirstClip" then ⟨1, some "first"⟩
    else if url = "https://gfycat.com/cajax/get/SecondClip" then ⟨0, some "second"⟩
    else ⟨2, some "Not Found"⟩
  unmarshalGfy s :=
    if s = "first" then some ⟨⟨"https://giant.gfycat.com/FirstClip.mp4", ""⟩⟩
    else if s = "second" then some ⟨⟨"https://giant.gfycat.com/SecondClip.mp4", ""⟩⟩
    else none
  unmarshalBlog s :=
    if s = "page-105-104" then (false, [postWithID "105", postWithID "104"])
    else if s = "page-103-102-99" then (false, [postWithID "103", postWithID "102", postWithID "99"])
    else if s = "page-98" then (false, [postWithID "98"])
    else if s = "page-big" then
      (false, [postWithID "9223372036854775809", postWithID "9223372036854775808"])
    else if s = "empty" then (false, [])
    else if s = "page-97-id-number" then (true, [postWithID "", postWithID "96"])
    else (true, [])
  stat p := p = "downloads/blog/old.jpg"

/-- A source without a tag whose last-known cursor is "100". -/
def sampleUser : blog := ⟨"blog", "", "100"⟩

/-- A source with a tag. -/
def taggedUser : blog := ⟨"blog", "cute cats", "0"⟩

/-- Settings with both kinds of download on and update mode on. -/
def updateConfig : Config := ⟨false, false, true, "downloads"⟩

/-- Settings with both kinds of download on and update mode off. -/
def fullConfig : Config := ⟨false, false, false, "downloads"⟩

/-- A shared state before anything has happened. -/
def freshShared : Shared := Crawl.init.sh

/-- A video post whose player markup carries an `hdUrl`, with a caption. -/
def videoPost (id caption : String) : Post :=
  Post.mk id "video" "" [] 0 "" "" ""
    (String.mk ([dquote] ++ "hdUrl".data ++ [dquote, ':', dquote]
      ++ "https://vt.tumblr.com/tumblr_clip".data ++ [dquote])) caption

/-- The page of the incremental example: identifiers "103", "102", "99"; the first two are
photo posts, the second one's file is already on disk. -/
def examplePage : List Post :=
  [photoPost "103" "http://x/new.jpg" "", photoPost "102" "http://x/old.jpg" "",
   photoPost "99" "http://x/older.jpg" ""]

/-- A source whose last-known cursor is the largest `int`. -/
def maxCursorUser : blog := ⟨"blog", "", "9223372036854775807"⟩

/-- A state of the incremental example: page 1 is fetched, its goroutine has extracted
"103" and "102" and entered "99" into the cursor update, and the paging loop is waiting
in its inner `select`. -/
def stoppingCrawl : Crawl :=
  { i := 2, pc := LoopPc.wait,
    sh := { highestID := "103", done := false, imageChannel := [], alreadyExists := 0,
            totalFound := 0, progressTotal := 0,
            hist := [Event.fetch 1 ⟨"http", "http://blog.tumblr.com/api/read/json", "",
                       "num=50&start=0"⟩
                       (some [postWithID "103", postWithID "102", postWithID "99"]),
                     Event.update (postWithID "103"), Event.extract (postWithID "103"),
                     Event.update (postWithID "102"), Event.extract (postWithID "102"),
                     Event.update (postWithID "99")] },
    tasks := [TaskPc.check 100 (postWithID "99") []],
    logged := 0, crashed := false, closed := false, persisted := none }

/-- The state `stoppingCrawl` with the limiter's tick already received: the paging loop
is between `shouldFinishScraping` and `http.Get`. -/
def tickedCrawl : Crawl := { stoppingCrawl with pc := LoopPc.request }

/-- The start of a crawl with the first tick received. -/
def requestingCrawl : Crawl := { Crawl.init with pc := LoopPc.request }

/-- A photo post with a gallery of two entries, a direct URL of its own and a caption
with two short-link references. -/
def galleryPost : Post :=
  Post.mk "11" "photo" "http://x/own.jpg"
    [Post.mk "" "" "http://x/g1.jpg" [] 0 "" "" "" "" "",
     Post.mk "" "" "http://x/g2.jpg" [] 0 "" "" "" "" ""] 0 twoLinkCaption "" "" "" ""

/-! # Theorems -/

/-! ## `strconv.Atoi` on decimal strings -/

theorem isDigit_bounds (c : Char) (h : c.isDigit = true) : 48 ≤ c.toNat ∧ c.toNat ≤ 57 := by
  unfold Char.isDigit at h
  simp only [Bool.and_eq_true, decide_eq_true_eq] at h
  obtain ⟨h1, h2⟩ := h
  rw [ge_iff_le, UInt32.le_def] at h1
  rw [UInt32.le_def] at h2
  constructor
  · exact h1
  · exact h2

theorem isDigit_ne_sign (c : Char) (h : c.isDigit = true) : c ≠ '+' ∧ c ≠ '-' := by
  have hb := isDigit_bounds c h
  constructor
  · rintro rfl; revert hb; decide
  · rintro rfl; revert hb; decide

theorem digitsValue_ge (cs : List Char) (n : Nat) : n ≤ digitsValue cs n := by
  induction cs generalizing n with
  | nil => simp [digitsValue]
  | cons c cs ih =>
    have := ih (n * 10 + (c.toNat - 48))
    simp only [digitsValue, List.foldl_cons] at this ⊢
    omega

theorem digitsValue_cons (c : Char) (cs : List Char) (n : Nat) :
    digitsValue (c :: cs) n = digitsValue cs (n * 10 + (c.toNat - 48)) := rfl

theorem parseUintLoop_digits (cs : List Char) (n : Nat) (hn : n ≤ maxUint64)
    (hd : ∀ c ∈ cs, c.isDigit = true) :
    parseUintLoop cs n =
      if digitsValue cs n ≤ maxUint64 then (digitsValue cs n, none)
      else (maxUint64, some NumError.ErrRange) := by
  induction cs generalizing n with
  | nil => simp [parseUintLoop, digitsValue, hn]
  | cons c cs ih =>
    have hc : c.isDigit = true := hd c (List.mem_cons_self _ _)
    have hcs : ∀ c ∈ cs, c.isDigit = true := fun x hx => hd x (List.mem_cons_of_mem _ hx)
    have hb := isDigit_bounds c hc
    have hge := digitsValue_ge cs (n * 10 + (c.toNat - 48))
    rw [digitsValue_cons]
    simp only [parseUintLoop, hc, if_true]
    unfold maxUint64 at *
    by_cases h1 : n ≥ 18446744073709551615 / 10 + 1
    · rw [if_pos h1, if_neg (by omega)]
    · rw [if_neg h1]
      have hn10 : n * 10 % 18446744073709551616 = n * 10 := Nat.mod_eq_of_lt (by omega)
      simp only [hn10]
      by_cases h2 : n * 10 + (c.toNat - 48) < 18446744073709551616
      · rw [Nat.mod_eq_of_lt h2, if_neg (by omega)]
        exact ih _ (by omega) hcs
      · have h3 : (n * 10 + (c.toNat - 48)) % 18446744073709551616
            = n * 10 + (c.toNat - 48) - 18446744073709551616 := by
          rw [Nat.mod_eq_sub_mod (by omega), Nat.mod_eq_of_lt (by omega)]
        rw [h3, if_pos (by omega), if_neg (by omega)]

/-- On a decimal string `Atoi` returns the number it denotes when that fits an `int`,
and otherwise the largest `int` together with a range error. -/
theorem Atoi_decimal (s : String) (h : IsDecimal s) :
    Atoi s = if (decimalValue s : Int) ≤ maxInt then ((decimalValue s : Int), none)
      else (maxInt, some NumError.ErrRange) := by
  obtain ⟨hne, hd⟩ := h
  unfold Atoi ParseInt decimalValue
  cases hs : s.data with
  | nil => exact absurd hs hne
  | cons c rest =>
    have hc : c.isDigit = true := hd c (by rw [hs]; exact List.mem_cons_self _ _)
    have hsign := isDigit_ne_sign c hc
    have hd2 : ∀ x ∈ c :: rest, x.isDigit = true := by rw [← hs]; exact hd
    have hloop := parseUintLoop_digits (c :: rest) 0 (by unfold maxUint64; omega) hd2
    simp only [hsign.1, hsign.2, or_self, if_false, decide_False, ParseUint,
      List.cons_ne_nil, Bool.not_false, Bool.true_and, Bool.false_and]
    rw [hloop]
    unfold maxUint64 maxInt
    by_cases h1 : digitsValue (c :: rest) 0 ≤ 18446744073709551615
    · rw [if_pos h1]
      by_cases h2 : digitsValue (c :: rest) 0 ≥ 9223372036854775808
      · simp [h2]
        rw [if_neg (by omega)]
      · simp [h2]
        rw [if_pos (by omega)]
    · rw [if_neg h1]
      simp
      rw [if_neg (by omega)]


/-! ## The dedup filter -/

/-- C5: for a URL of a post, when a file exists at
`join(downloadDirectory, source name, base(URL))` nothing is sent, the skip counter grows
by one and the discovered and expected-work counters stay; when no file exists there,
exactly one task with the source name, the URL and the post's timestamp is sent, the
discovered and expected-work counters grow by one each and the skip counter stays. -/
theorem enqueueURL_dedup (cfg : Config) (w : World) (user : blog) (post : Post) (sh : Shared)
    (URL : String) :
    (w.stat (pathJoin [cfg.downloadDirectory, user.name, pathBase URL]) = true →
      (enqueueURL cfg w user post sh URL).imageChannel = sh.imageChannel ∧
      (enqueueURL cfg w user post sh URL).alreadyExists = sh.alreadyExists + 1 ∧
      (enqueueURL cfg w user post sh URL).totalFound = sh.totalFound ∧
      (enqueueURL cfg w user post sh URL).progressTotal = sh.progressTotal) ∧
    (w.stat (pathJoin [cfg.downloadDirectory, user.name, pathBase URL]) = false →
      (enqueueURL cfg w user post sh URL).imageChannel =
        sh.imageChannel ++ [⟨user.name, URL, post.UnixTimestamp⟩] ∧
      (enqueueURL cfg w user post sh URL).alreadyExists = sh.alreadyExists ∧
      (enqueueURL cfg w user post sh URL).totalFound = sh.totalFound + 1 ∧
      (enqueueURL cfg w user post sh URL).progressTotal = sh.progressTotal + 1) := by
  constructor
  · intro h
    simp [enqueueURL, h]
  · intro h
    simp [enqueueURL, h]

/-- C5 at two URLs of the incremental example: the file of `old.jpg` is on disk, so the
URL is skipped and counted; that of `new.jpg` is not, so one task is sent and counted. -/
theorem enqueueURL_dedup_witness :
    ((enqueueURL fullConfig sampleWorld sampleUser (postWithID "102") freshShared
        "http://x/old.jpg").imageChannel = freshShared.imageChannel ∧
      (enqueueURL fullConfig sampleWorld sampleUser (postWithID "102") freshShared
        "http://x/old.jpg").alreadyExists = freshShared.alreadyExists + 1 ∧
      (enqueueURL fullConfig sampleWorld sampleUser (postWithID "102") freshShared
        "http://x/old.jpg").totalFound = freshShared.totalFound ∧
      (enqueueURL fullConfig sampleWorld sampleUser (postWithID "102") freshShared
        "http://x/old.jpg").progressTotal = freshShared.progressTotal) ∧
    ((enqueueURL fullConfig sampleWorld sampleUser (postWithID "103") freshShared
        "http://x/new.jpg").imageChannel =
        freshShared.imageChannel ++ [⟨"blog", "http://x/new.jpg", 0⟩] ∧
      (enqueueURL fullConfig sampleWorld sampleUser (postWithID "103") freshShared
        "http://x/new.jpg").alreadyExists = freshShared.alreadyExists ∧
      (enqueueURL fullConfig sampleWorld sampleUser (postWithID "103") freshShared
        "http://x/new.jpg").totalFound = freshShared.totalFound + 1 ∧
      (enqueueURL fullConfig sampleWorld sampleUser (postWithID "103") freshShared
        "http://x/new.jpg").progressTotal = freshShared.progressTotal + 1) :=
  ⟨(enqueueURL_dedup fullConfig sampleWorld sampleUser (postWithID "102") freshShared
      "http://x/old.jpg").1 (by decide),
   (enqueueURL_dedup fullConfig sampleWorld sampleUser (postWithID "103") freshShared
      "http://x/new.jpg").2 (by decide)⟩

/-! ## The page request -/

theorem wrapInt_of_range (n : Int) (h0 : -9223372036854775808 ≤ n) (h1 : n ≤ 9223372036854775807) :
    wrapInt n = n := by
  unfold wrapInt
  omega

theorem shouldEscape_digitChar (d : Nat) (h : d < 10) : shouldEscape (Nat.digitChar d) = false := by
  interval_cases d <;> decide

theorem formatUintAux_unescaped (fuel n : Nat) (acc : List Char)
    (hacc : ∀ c ∈ acc, shouldEscape c = false) :
    ∀ c ∈ formatUintAux fuel n acc, shouldEscape c = false := by
  induction fuel generalizing n acc with
  | zero => simpa [formatUintAux] using hacc
  | succ fuel ih =>
    unfold formatUintAux
    split
    · intro c hc
      rcases List.mem_cons.1 hc with rfl | hc
      · exact shouldEscape_digitChar n (by assumption)
      · exact hacc c hc
    · apply ih
      intro c hc
      rcases List.mem_cons.1 hc with rfl | hc
      · exact shouldEscape_digitChar _ (Nat.mod_lt _ (by decide))
      · exact hacc c hc

theorem flatMap_escapeChar_of_unescaped (l : List Char) (h : ∀ c ∈ l, shouldEscape c = false) :
    l.flatMap escapeChar = l := by
  induction l with
  | nil => rfl
  | cons c cs ih =>
    have hc : shouldEscape c = false := h c (List.mem_cons_self _ _)
    have hcs := ih fun x hx => h x (List.mem_cons_of_mem _ hx)
    simp only [List.flatMap_cons, hcs, escapeChar, hc]
    rfl

theorem QueryEscape_Itoa (n : Int) (h : 0 ≤ n) : QueryEscape (Itoa n) = Itoa n := by
  unfold Itoa
  rw [if_neg (by omega)]
  unfold QueryEscape
  congr 1
  exact flatMap_escapeChar_of_unescaped _
    (formatUintAux_unescaped _ _ [] (by simp))

/-- C9 (amended): for every source and every page index `i` from 1 to
184467440737095517, the largest index whose offset fits an `int`, the query built by
`makeTumblrURL` holds `num` = "50", `start` = the decimal rendering of `(i - 1) * 50`, and
a `tagged` parameter, equal to the source's tag, exactly when that tag is not empty; the
URL returned is the parsed base address with this query encoded as its raw query. -/
theorem makeTumblrURL_query (w : World) (user : blog) (i : Int) (h1 : 1 ≤ i)
    (h2 : i ≤ 184467440737095517) :
    (tumblrValues user i).Get "num" = "50" ∧
    (tumblrValues user i).lookup "num" = ["50"] ∧
    (tumblrValues user i).lookup "start" = [Itoa ((i - 1) * 50)] ∧
    ((tumblrValues user i).Has "tagged" = true ↔ user.tag ≠ "") ∧
    (user.tag ≠ "" → (tumblrValues user i).lookup "tagged" = [user.tag]) ∧
    (tumblrValues user i).Encode =
      "num=50&start=" ++ Itoa ((i - 1) * 50) ++
        (if user.tag = "" then "" else "&tagged=" ++ QueryEscape user.tag) ∧
    makeTumblrURL w user i =
      (checkFatalError (w.urlParse ("http://" ++ user.name ++ ".tumblr.com/api/read/json"))).map
        fun u => { u with RawQuery := (tumblrValues user i).Encode } := by
  have hw : wrapInt (wrapInt (i - 1) * 50) = (i - 1) * 50 := by
    rw [wrapInt_of_range (i - 1) (by omega) (by omega)]
    exact wrapInt_of_range _ (by omega) (by omega)
  have hesc := QueryEscape_Itoa ((i - 1) * 50) (by omega)
  refine ⟨?_, ?_, ?_, ?_, ?_, ?_, ?_⟩
  · by_cases ht : user.tag = "" <;>
      simp [tumblrValues, ht, Values.Get, Values.lookup, Values.Set, Values.Add, List.lookup]
  · by_cases ht : user.tag = "" <;>
      simp [tumblrValues, ht, Values.Get, Values.lookup, Values.Set, Values.Add, List.lookup]
  · by_cases ht : user.tag = "" <;>
      simp [tumblrValues, ht, hw, Values.Get, Values.lookup, Values.Set, Values.Add, List.lookup]
  · by_cases ht : user.tag = "" <;>
      simp [tumblrValues, ht, Values.Has, Values.lookup, Values.Set, Values.Add, List.lookup]
  · intro ht
    simp [tumblrValues, ht, Values.Get, Values.lookup, Values.Set, Values.Add, List.lookup]
  · have k1 : sortKeys ["num", "start"] = ["num", "start"] := by decide
    have k2 : sortKeys ["num", "start", "tagged"] = ["num", "start", "tagged"] := by decide
    have e1 : QueryEscape "num" = "num" := by decide
    have e2 : QueryEscape "start" = "start" := by decide
    have e3 : QueryEscape "tagged" = "tagged" := by decide
    have e4 : QueryEscape "50" = "50" := by decide
    by_cases ht : user.tag = ""
    · simp [tumblrValues, ht, hw, Values.Encode, Values.lookup, Values.Set, Values.Add,
        List.lookup, k1, encodeKey, e1, e2, e4, hesc]
      apply String.ext
      simp [String.data_append]
    · simp [tumblrValues, ht, hw, Values.Encode, Values.lookup, Values.Set, Values.Add,
        List.lookup, k2, encodeKey, e1, e2, e3, e4, hesc]
      apply String.ext
      simp [String.data_append]
  · simp only [makeTumblrURL]
    cases w.urlParse ("http://" ++ user.name ++ ".tumblr.com/api/read/json") <;> rfl

/-- C9 at page index 3 of a tagged source: offset 100, tag escaped in the raw query. -/
theorem makeTumblrURL_query_witness :
    (tumblrValues taggedUser 3).lookup "start" = [Itoa ((3 - 1) * 50)] ∧
    (tumblrValues taggedUser 3).Encode = "num=50&start=100&tagged=cute+cats" :=
  ⟨(makeTumblrURL_query sampleWorld taggedUser 3 (by decide) (by decide)).2.2.1, by decide⟩

/-- C9 as stated fails at page index 184467440737095518: the offset `(i - 1) * 50` is
9223372036854775850, which no `int` holds; the query carries the wrapped value. -/
theorem makeTumblrURL_offset_wraps :
    (1 : Int) ≤ 184467440737095518 ∧
    (tumblrValues sampleUser 184467440737095518).lookup "start" = ["-9223372036854775766"] ∧
    Itoa ((184467440737095518 - 1) * 50) = "9223372036854775850" ∧
    makeTumblrURL sampleWorld sampleUser 184467440737095518 =
      Except.ok ⟨"http", "http://blog.tumblr.com/api/read/json", "",
        "num=50&start=-9223372036854775766"⟩ := by
  decide

/-! ## Extraction -/

theorem appendGfycatURLs_eq (w : World) (vs URLs : List String) :
    appendGfycatURLs w URLs vs = (appendGfycatURLs w [] vs).map fun caps => URLs ++ caps := by
  induction vs generalizing URLs with
  | nil => simp [appendGfycatURLs, pure, Except.pure, Except.map]
  | cons v vs ih =>
    unfold appendGfycatURLs
    cases hg : GetGfycatURL w v with
    | error e => rfl
    | ok u =>
      show appendGfycatURLs w (URLs ++ [u]) vs =
        Except.map (fun caps => URLs ++ caps) (appendGfycatURLs w ([] ++ [u]) vs)
      rw [ih (URLs ++ [u]), ih ([] ++ [u])]
      cases appendGfycatURLs w [] vs with
      | error e => rfl
      | ok r => simp [Except.map]

theorem parseDataForFiles_photo_eq (cfg : Config) (w : World) (post : Post)
    (h : post.PostType = "photo") :
    parseDataForFiles cfg w post =
      (if cfg.ignoreVideos then Except.ok [] else captionURLs w post.PhotoCaption).map
        fun caps => (if cfg.ignorePhotos then [] else primaryPhotoURLs post) ++ caps := by
  have hfirst : downloadTypeWrapper (!cfg.ignorePhotos) (fun URLs =>
      if post.Photos.length = 0 then pure (URLs ++ [post.PhotoURL])
      else pure (URLs ++ post.Photos.map Post.PhotoURL)) [] =
      Except.ok (if cfg.ignorePhotos then [] else primaryPhotoURLs post) := by
    unfold primaryPhotoURLs downloadTypeWrapper
    cases cfg.ignorePhotos <;> cases post.Photos <;> simp [pure, Except.pure]
  unfold parseDataForFiles
  rw [if_pos h, hfirst]
  simp only [bind, Except.bind]
  unfold downloadTypeWrapper captionURLs
  cases cfg.ignoreVideos
  · simp only [Bool.not_false, if_true, Bool.false_eq_true, if_false]
    cases gfycatSearch.FindStringSubmatch post.PhotoCaption with
    | none => simp [pure, Except.pure, Except.map]
    | some r => exact appendGfycatURLs_eq w _ _
  · simp [pure, Except.pure, Except.map]

/-- C10: for a photo post the list `parseDataForFiles` returns is the primary photo URLs
(the single direct URL without a gallery, else one URL per gallery entry in order and
not the post's own URL; none when photos are switched off) followed by the URLs resolved
from the caption (none when videos are switched off), each part under its own switch; a
post of a kind other than photo, answer, regular and video yields no URLs. -/
theorem parseDataForFiles_photo (cfg : Config) (w : World) (post : Post) :
    (post.PostType = "photo" →
      parseDataForFiles cfg w post =
        (if cfg.ignoreVideos then Except.ok [] else captionURLs w post.PhotoCaption).map
          fun caps => (if cfg.ignorePhotos then [] else primaryPhotoURLs post) ++ caps) ∧
    (post.Photos = [] → primaryPhotoURLs post = [post.PhotoURL]) ∧
    (post.Photos ≠ [] → primaryPhotoURLs post = post.Photos.map Post.PhotoURL) ∧
    (post.PostType ≠ "photo" → post.PostType ≠ "answer" → post.PostType ≠ "regular" →
      post.PostType ≠ "video" → parseDataForFiles cfg w post = Except.ok []) := by
  refine ⟨parseDataForFiles_photo_eq cfg w post, ?_, ?_, ?_⟩
  · intro h
    simp [primaryPhotoURLs, h]
  · intro h
    unfold primaryPhotoURLs
    cases hp : post.Photos with
    | nil => exact absurd hp h
    | cons q qs => rfl
  · intro h1 h2 h3 h4
    simp [parseDataForFiles, h1, h2, h3, h4, pure, Except.pure]

/-- C10 on a gallery post with a caption link, under each setting of the two switches,
and on a post of an unknown kind. -/
theorem parseDataForFiles_photo_witness :
    parseDataForFiles fullConfig sampleWorld galleryPost =
      (if fullConfig.ignoreVideos then Except.ok []
        else captionURLs sampleWorld galleryPost.PhotoCaption).map
        (fun caps => (if fullConfig.ignorePhotos then [] else primaryPhotoURLs galleryPost)
          ++ caps) ∧
    primaryPhotoURLs galleryPost = galleryPost.Photos.map Post.PhotoURL ∧
    parseDataForFiles fullConfig sampleWorld galleryPost =
      Except.ok ["http://x/g1.jpg", "http://x/g2.jpg", "https://giant.gfycat.com/FirstClip.mp4"] ∧
    parseDataForFiles ⟨true, false, false, "downloads"⟩ sampleWorld galleryPost =
      Except.ok ["https://giant.gfycat.com/FirstClip.mp4"] ∧
    parseDataForFiles ⟨false, true, false, "downloads"⟩ sampleWorld galleryPost =
      Except.ok ["http://x/g1.jpg", "http://x/g2.jpg"] ∧
    parseDataForFiles fullConfig sampleWorld (Post.mk "9" "quote" "http://x/q.jpg" [] 0
      twoLinkCaption "" "" "" "") = Except.ok [] :=
  ⟨(parseDataForFiles_photo fullConfig sampleWorld galleryPost).1 (by decide),
   (parseDataForFiles_photo fullConfig sampleWorld galleryPost).2.2.1
     (by simp [galleryPost, Post.Photos]),
   by decide, by decide, by decide,
   (parseDataForFiles_photo fullConfig sampleWorld (Post.mk "9" "quote" "http://x/q.jpg" [] 0
      twoLinkCaption "" "" "" "")).2.2.2 (by decide) (by decide) (by decide) (by decide)⟩

theorem getUntilResponse_eq (n : Nat) (body : Option String) : getUntilResponse n body = body := by
  induction n with
  | zero => rfl
  | succ n ih => simpa [getUntilResponse] using ih

theorem GetGfycatURL_of_not_found (w : World) (slug : String)
    (h : (w.gfycat (gfyRequest slug)).body = some "Not Found") :
    GetGfycatURL w slug = Except.ok "" := by
  simp [GetGfycatURL, getUntilResponse_eq, h, checkFatalError, bind, Except.bind, pure,
    Except.pure]

/-- The half of C7 the code keeps: when the resolver's response body is exactly
`Not Found`, `GetGfycatURL` returns the empty string and no fatal error, however many
transport errors came first; any other body that does not decode is fatal. -/
theorem GetGfycatURL_not_found (w : World) (slug : String) :
    ((w.gfycat (gfyRequest slug)).body = some "Not Found" →
      GetGfycatURL w slug = Except.ok "") ∧
    (∀ body, (w.gfycat (gfyRequest slug)).body = some body → body ≠ "Not Found" →
      w.unmarshalGfy body = none → GetGfycatURL w slug = Except.error Fatal.exit) := by
  refine ⟨GetGfycatURL_of_not_found w slug, ?_⟩
  intro body hb hne hu
  simp [GetGfycatURL, getUntilResponse_eq, hb, hne, hu, checkFatalError, bind, Except.bind]

/-- The half of C7 the code breaks: a photo post whose caption holds a reference that the
resolver answers with `Not Found` gets an empty-string entry at the end of its URL list. -/
theorem parseDataForFiles_keeps_unresolved (cfg : Config) (w : World) (post : Post)
    (whole slug : String) (hphoto : post.PostType = "photo") (hv : cfg.ignoreVideos = false)
    (hm : gfycatSearch.FindStringSubmatch post.PhotoCaption = some [whole, slug])
    (hnf : (w.gfycat (gfyRequest slug)).body = some "Not Found") :
    parseDataForFiles cfg w post =
      Except.ok ((if cfg.ignorePhotos then [] else primaryPhotoURLs post) ++ [""]) := by
  rw [parseDataForFiles_photo_eq cfg w post hphoto, hv]
  simp [captionURLs, hm, appendGfycatURLs, GetGfycatURL_of_not_found w slug hnf, bind,
    Except.bind, pure, Except.pure, Except.map]

/-- The empty-string entry at the one-link caption whose clip is gone. -/
theorem parseDataForFiles_keeps_unresolved_witness :
    parseDataForFiles fullConfig sampleWorld (photoPost "7" "http://x/p.jpg" oneLinkCaption) =
      Except.ok (primaryPhotoURLs (photoPost "7" "http://x/p.jpg" oneLinkCaption) ++ [""]) :=
  parseDataForFiles_keeps_unresolved fullConfig sampleWorld
    (photoPost "7" "http://x/p.jpg" oneLinkCaption)
    (String.mk ("href=".data ++ [dquote] ++ "https://gfycat.com/GoneClip".data)) "GoneClip"
    (by decide) (by decide) (by decide) (by decide)

/-- C7 at a failing input: the caption holds one reference, the resolver answers it with
`Not Found`, `GetGfycatURL` returns the empty string, and `parseDataForFiles` returns the
photo URL followed by an empty-string URL; `getGfycatFiles`, the sibling in `file.go`,
drops the unresolved reference. -/
theorem parseDataForFiles_unresolved_example :
    gfycatReferences oneLinkCaption = ["GoneClip"] ∧
    (sampleWorld.gfycat (gfyRequest "GoneClip")).body = some "Not Found" ∧
    GetGfycatURL sampleWorld "GoneClip" = Except.ok "" ∧
    parseDataForFiles fullConfig sampleWorld (photoPost "7" "http://x/p.jpg" oneLinkCaption) =
      Except.ok ["http://x/p.jpg", ""] ∧
    getGfycatFiles sampleWorld oneLinkCaption "" = Except.ok [] := by
  decide

/-- C6 at a failing input: the caption holds two references, both resolve to non-empty
URLs, and `parseDataForFiles` returns one resolved URL, that of the leftmost reference,
for the photo post and for the video post alike. -/
theorem parseDataForFiles_two_links_example :
    gfycatReferences twoLinkCaption = ["FirstClip", "SecondClip"] ∧
    GetGfycatURL sampleWorld "FirstClip" = Except.ok "https://giant.gfycat.com/FirstClip.mp4" ∧
    GetGfycatURL sampleWorld "SecondClip" = Except.ok "https://giant.gfycat.com/SecondClip.mp4" ∧
    parseDataForFiles fullConfig sampleWorld (photoPost "7" "http://x/p.jpg" twoLinkCaption) =
      Except.ok ["http://x/p.jpg", "https://giant.gfycat.com/FirstClip.mp4"] ∧
    parseDataForFiles fullConfig sampleWorld (videoPost "8" twoLinkCaption) =
      Except.ok ["https://vt.tumblr.com/tumblr_clip.mp4", "https://giant.gfycat.com/FirstClip.mp4"] := by
  decide

theorem lit_all {α : Type} (P : α → Prop) (k : Cont α) (hk : ∀ s r, k s = some r → P r)
    (l s : List Char) (r : α) (h : lit l k s = some r) : P r := by
  induction l generalizing s with
  | nil => exact hk s r h
  | cons c cs ih =>
    cases s with
    | nil => simp [lit] at h
    | cons d ds =>
      unfold lit at h
      split at h
      · exact ih ds h
      · simp at h

theorem opt_all {α : Type} (P : α → Prop) (m : Cont α → Cont α) (k : Cont α)
    (hm : ∀ s r, m k s = some r → P r) (hk : ∀ s r, k s = some r → P r)
    (s : List Char) (r : α) (h : opt m k s = some r) : P r := by
  unfold opt at h
  cases hms : m k s with
  | some x =>
    rw [hms] at h
    simp [Option.orElse] at h
    subst h
    exact hm s x hms
  | none =>
    rw [hms] at h
    simp [Option.orElse] at h
    exact hk s r h

theorem star_all {α : Type} (P : α → Prop) (p : Char → Bool) (k : Cont α)
    (hk : ∀ s r, k s = some r → P r) (s : List Char) (r : α) (h : star p k s = some r) :
    P r := by
  induction s with
  | nil => exact hk [] r h
  | cons c cs ih =>
    unfold star at h
    split at h
    · cases hs : star p k cs with
      | some x =>
        rw [hs] at h
        simp [Option.orElse] at h
        subst h
        exact ih hs
      | none =>
        rw [hs] at h
        simp [Option.orElse] at h
        exact hk _ r h
    · exact hk _ r h

theorem plus_all {α : Type} (P : α → Prop) (p : Char → Bool) (k : Cont α)
    (hk : ∀ s r, k s = some r → P r) (s : List Char) (r : α) (h : plus p k s = some r) :
    P r := by
  cases s with
  | nil => simp [plus] at h
  | cons c cs =>
    by_cases hp : p c = true
    · simp only [plus, hp, if_true] at h
      exact star_all P p k hk cs r h
    · simp [plus, hp] at h

theorem gfycatSearch_matchAt_groups (s rest : List Char) (groups : List String)
    (h : gfycatSearch.matchAt s = some (rest, groups)) :
    ∃ whole slug, groups = [whole, slug] := by
  have key : ∀ (x : List Char × List String), gfycatSearch.matchAt s = some x →
      ∃ whole slug, x.2 = [whole, slug] := by
    intro x hx
    change lit _ _ s = some x at hx
    have h3 : ∀ (t : List Char) (r : List Char × List String),
        lit "gfycat.com/".data (fun g0 =>
          plus isWordChar (fun e => some (e, [span s e, span g0 e])) g0) t = some r →
        ∃ whole slug, r.2 = [whole, slug] := by
      intro t r ht
      refine lit_all (fun r => ∃ whole slug, r.2 = [whole, slug]) _ ?_ _ _ _ ht
      intro g0 r2 hr2
      refine plus_all (fun r => ∃ whole slug, r.2 = [whole, slug]) _ _ ?_ _ _ hr2
      intro e r3 hr3
      simp at hr3
      subst hr3
      exact ⟨_, _, rfl⟩
    have h2 : ∀ (t : List Char) (r : List Char × List String),
        lit "://".data (opt (lit "www.".data) (lit "gfycat.com/".data (fun g0 =>
          plus isWordChar (fun e => some (e, [span s e, span g0 e])) g0))) t = some r →
        ∃ whole slug, r.2 = [whole, slug] := by
      intro t r ht
      refine lit_all (fun r => ∃ whole slug, r.2 = [whole, slug]) _ ?_ _ _ _ ht
      intro t2 r2 ht2
      refine opt_all (fun r => ∃ whole slug, r.2 = [whole, slug]) _ _ ?_ h3 _ _ ht2
      intro t3 r3 ht3
      exact lit_all (fun r => ∃ whole slug, r.2 = [whole, slug]) _ h3 _ _ _ ht3
    refine lit_all (fun r => ∃ whole slug, r.2 = [whole, slug]) _ ?_ _ _ _ hx
    intro t r ht
    refine opt_all (fun r => ∃ whole slug, r.2 = [whole, slug]) _ _ ?_ h2 _ _ ht
    intro t3 r3 ht3
    exact lit_all (fun r => ∃ whole slug, r.2 = [whole, slug]) _ h2 _ _ _ ht3
  exact key (rest, groups) h

theorem gfycatSearch_leftmost_groups (s rest : List Char) (groups : List String)
    (h : gfycatSearch.leftmost s = some (rest, groups)) :
    ∃ whole slug, groups = [whole, slug] := by
  induction s with
  | nil => exact gfycatSearch_matchAt_groups [] rest groups h
  | cons c cs ih =>
    unfold Regexp.leftmost at h
    cases hm : gfycatSearch.matchAt (c :: cs) with
    | some x =>
      rw [hm] at h
      simp [Option.orElse] at h
      subst h
      exact gfycatSearch_matchAt_groups _ _ _ hm
    | none =>
      rw [hm] at h
      simp [Option.orElse] at h
      exact ih h

/-- What `FindStringSubmatch` hands `parseDataForFiles` for the short-link pattern is the
leftmost match alone: the matched text and its one group. -/
theorem gfycatSearch_FindStringSubmatch_groups (caption : String) (r : List String)
    (h : gfycatSearch.FindStringSubmatch caption = some r) :
    ∃ whole slug, r = [whole, slug] := by
  unfold Regexp.FindStringSubmatch at h
  cases hl : gfycatSearch.leftmost caption.data with
  | none => simp [hl] at h
  | some x =>
    obtain ⟨rest, groups⟩ := x
    simp [hl] at h
    subst h
    exact gfycatSearch_leftmost_groups _ _ _ hl

/-- The caption scan of `parseDataForFiles` resolves one reference at most, however many
the caption holds. -/
theorem captionURLs_at_most_one (w : World) (caption : String) (urls : List String)
    (h : captionURLs w caption = Except.ok urls) : urls.length ≤ 1 := by
  unfold captionURLs at h
  cases hf : gfycatSearch.FindStringSubmatch caption with
  | none =>
    simp [hf, pure, Except.pure] at h
    subst h
    simp
  | some r =>
    obtain ⟨whole, slug, rfl⟩ := gfycatSearch_FindStringSubmatch_groups caption r hf
    simp only [hf, List.drop_succ_cons, List.drop_zero, appendGfycatURLs, bind, Except.bind,
      List.nil_append, pure, Except.pure] at h
    cases hg : GetGfycatURL w slug with
    | error e => simp [hg] at h
    | ok u =>
      simp [hg] at h
      subst h
      simp

/-- The two-link caption yields the URL of its first clip alone. -/
theorem captionURLs_at_most_one_witness :
    captionURLs sampleWorld twoLinkCaption = Except.ok ["https://giant.gfycat.com/FirstClip.mp4"] ∧
    ["https://giant.gfycat.com/FirstClip.mp4"].length ≤ 1 :=
  ⟨by decide, captionURLs_at_most_one sampleWorld twoLinkCaption _ (by decide)⟩

/-! ## The cursor -/

theorem Atoi_inRange (s : String) (h : InIntRange s) : Atoi s = ((decimalValue s : Int), none) := by
  rw [Atoi_decimal s h.1, if_pos h.2]

theorem updateHighestID_inRange (cur : String) (p : Post) (hc : InIntRange cur)
    (hp : InIntRange p.ID) :
    updateHighestID cur p = if decimalValue cur ≤ decimalValue p.ID then p.ID else cur := by
  unfold updateHighestID
  simp only [Atoi_inRange cur hc, Atoi_inRange p.ID hp, ge_iff_le, Nat.cast_le]

theorem foldl_updateHighestID (ps : List Post) (cur : String) (hc : InIntRange cur)
    (hps : ∀ p ∈ ps, InIntRange p.ID) :
    InIntRange (ps.foldl updateHighestID cur) ∧
    (ps.foldl updateHighestID cur = cur ∨ ∃ p ∈ ps, ps.foldl updateHighestID cur = p.ID) ∧
    decimalValue cur ≤ decimalValue (ps.foldl updateHighestID cur) ∧
    ∀ p ∈ ps, decimalValue p.ID ≤ decimalValue (ps.foldl updateHighestID cur) := by
  induction ps generalizing cur with
  | nil => exact ⟨hc, Or.inl rfl, le_refl _, fun p hp => absurd hp (List.not_mem_nil p)⟩
  | cons q qs ih =>
    have hq : InIntRange q.ID := hps q (List.mem_cons_self _ _)
    have hqs : ∀ p ∈ qs, InIntRange p.ID := fun p hp => hps p (List.mem_cons_of_mem _ hp)
    have hstep := updateHighestID_inRange cur q hc hq
    rw [List.foldl_cons]
    by_cases hle : decimalValue cur ≤ decimalValue q.ID
    · rw [if_pos hle] at hstep
      rw [hstep]
      obtain ⟨h1, h2, h3, h4⟩ := ih q.ID hq hqs
      refine ⟨h1, ?_, le_trans hle h3, ?_⟩
      · rcases h2 with h2 | ⟨p, hp, h2⟩
        · exact Or.inr ⟨q, List.mem_cons_self _ _, h2⟩
        · exact Or.inr ⟨p, List.mem_cons_of_mem _ hp, h2⟩
      · intro p hp
        rcases List.mem_cons.1 hp with rfl | hp
        · exact h3
        · exact h4 p hp
    · rw [if_neg hle] at hstep
      rw [hstep]
      obtain ⟨h1, h2, h3, h4⟩ := ih cur hc hqs
      refine ⟨h1, ?_, h3, ?_⟩
      · rcases h2 with h2 | ⟨p, hp, h2⟩
        · exact Or.inl h2
        · exact Or.inr ⟨p, List.mem_cons_of_mem _ hp, h2⟩
      · intro p hp
        rcases List.mem_cons.1 hp with rfl | hp
        · exact le_trans (le_of_lt (not_le.1 hle)) h3
        · exact h4 p hp

theorem inIntRange_zero : InIntRange "0" := by decide

/-- The cursor after any sequence of updates from "0", for identifiers that are decimal
strings of positive numbers an `int` holds: it is the identifier of one of the posts and
no post has a numerically larger identifier. -/
theorem foldl_updateHighestID_max (ps : List Post) (hne : ps ≠ [])
    (hps : ∀ p ∈ ps, InIntRange p.ID ∧ 0 < decimalValue p.ID) :
    (∃ p ∈ ps, ps.foldl updateHighestID "0" = p.ID) ∧
    ∀ p ∈ ps, decimalValue p.ID ≤ decimalValue (ps.foldl updateHighestID "0") := by
  obtain ⟨_, h2, _, h4⟩ := foldl_updateHighestID ps "0" inIntRange_zero fun p hp => (hps p hp).1
  refine ⟨?_, h4⟩
  rcases h2 with h2 | h2
  · obtain ⟨q, hq⟩ := List.exists_mem_of_ne_nil ps hne
    have h5 := h4 q hq
    rw [h2] at h5
    have h6 : decimalValue "0" = 0 := by decide
    have := (hps q hq).2
    omega
  · exact h2

/-! ## The extraction loop of one page -/

theorem except_map_bind {α β γ : Type} (x : Except Fatal α) (f : α → Except Fatal β)
    (g : β → γ) : (x >>= f).map g = x >>= fun a => (f a).map g := by
  cases x <;> rfl

theorem postLoop_eq (cfg : Config) (w : World) (user : blog) (l : Int) (posts : List Post)
    (sh : Shared) :
    postLoop cfg w user l posts sh =
      incrementalPage cfg w user (fun p => !stopTest cfg l p) posts sh := by
  induction posts generalizing sh with
  | nil => rfl
  | cons p rest ih =>
    unfold postLoop incrementalPage
    by_cases hs : stopTest cfg l p = true
    · simp [hs, List.takeWhile, List.dropWhile, pure, Except.pure, Except.map]
    · have hs2 : stopTest cfg l p = false := by simpa using hs
      simp only [hs2, Bool.false_eq_true, if_false, List.takeWhile, List.dropWhile,
        Bool.not_false, List.foldlM_cons]
      rw [except_map_bind]
      congr 1
      funext s
      exact ih s

theorem updatedPosts_append (a b : List Event) :
    updatedPosts (a ++ b) = updatedPosts a ++ updatedPosts b := by
  induction a with
  | nil => rfl
  | cons e es ih => cases e <;> simp [updatedPosts, ih]

theorem extractedPosts_append (a b : List Event) :
    extractedPosts (a ++ b) = extractedPosts a ++ extractedPosts b := by
  induction a with
  | nil => rfl
  | cons e es ih => cases e <;> simp [extractedPosts, ih]

theorem stopCount_append (a b : List Event) :
    stopCount (a ++ b) = stopCount a + stopCount b := by
  induction a with
  | nil => simp [stopCount]
  | cons e es ih =>
    cases e
    all_goals simp [stopCount, ih]
    omega

theorem fetchedPages_append (a b : List Event) :
    fetchedPages (a ++ b) = fetchedPages a ++ fetchedPages b := by
  induction a with
  | nil => rfl
  | cons e es ih => cases e <;> simp [fetchedPages, ih]

theorem fetchedIndices_append (a b : List Event) :
    fetchedIndices (a ++ b) = fetchedIndices a ++ fetchedIndices b := by
  simp [fetchedIndices, fetchedPages_append]

theorem enqueueURL_frame (cfg : Config) (w : World) (user : blog) (post : Post) (sh : Shared)
    (URL : String) :
    (enqueueURL cfg w user post sh URL).highestID = sh.highestID ∧
    (enqueueURL cfg w user post sh URL).done = sh.done ∧
    (enqueueURL cfg w user post sh URL).hist = sh.hist := by
  unfold enqueueURL
  by_cases h : w.stat (pathJoin [cfg.downloadDirectory, user.name, pathBase URL]) = true
  · simp [h]
  · simp [h]

theorem enqueueURL_channel (cfg : Config) (w : World) (user : blog) (post : Post) (sh : Shared)
    (URL : String) :
    (enqueueURL cfg w user post sh URL).imageChannel =
      sh.imageChannel ++ (([URL].filter fun URL =>
        !w.stat (pathJoin [cfg.downloadDirectory, user.name, pathBase URL])).map
        fun URL => ⟨user.name, URL, post.UnixTimestamp⟩) := by
  unfold enqueueURL
  by_cases h : w.stat (pathJoin [cfg.downloadDirectory, user.name, pathBase URL]) = true
  · simp [h]
  · simp [h]

theorem enqueueURLs_frame (cfg : Config) (w : World) (user : blog) (post : Post)
    (URLs : List String) (sh : Shared) :
    (enqueueURLs cfg w user post sh URLs).highestID = sh.highestID ∧
    (enqueueURLs cfg w user post sh URLs).done = sh.done ∧
    (enqueueURLs cfg w user post sh URLs).hist = sh.hist ∧
    (enqueueURLs cfg w user post sh URLs).imageChannel =
      sh.imageChannel ++ ((URLs.filter fun URL =>
        !w.stat (pathJoin [cfg.downloadDirectory, user.name, pathBase URL])).map
        fun URL => ⟨user.name, URL, post.UnixTimestamp⟩) := by
  induction URLs generalizing sh with
  | nil => simp [enqueueURLs]
  | cons u us ih =>
    have h := ih (enqueueURL cfg w user post sh u)
    have hf := enqueueURL_frame cfg w user post sh u
    have hc := enqueueURL_channel cfg w user post sh u
    unfold enqueueURLs at h ⊢
    rw [List.foldl_cons]
    refine ⟨h.1.trans hf.1, h.2.1.trans hf.2.1, h.2.2.1.trans hf.2.2, ?_⟩
    rw [h.2.2.2, hc]
    by_cases hs : w.stat (pathJoin [cfg.downloadDirectory, user.name, pathBase u]) = true
    · simp [List.filter, hs]
    · simp [List.filter, hs]

theorem extractPost_frame (cfg : Config) (w : World) (user : blog) (sh s1 : Shared) (p : Post)
    (h : extractPost cfg w user sh p = Except.ok s1) :
    s1.highestID = sh.highestID ∧ s1.done = sh.done ∧
    s1.hist = sh.hist ++ [Event.extract p] ∧
    s1.imageChannel = sh.imageChannel ++ newImages cfg w user p := by
  unfold extractPost at h
  unfold newImages
  cases hp : parseDataForFiles cfg w p with
  | error e => simp [hp, bind, Except.bind] at h
  | ok URLs =>
    simp only [hp, bind, Except.bind, pure, Except.pure, Except.ok.injEq] at h
    subst h
    have hf := enqueueURLs_frame cfg w user p URLs
      { sh with hist := sh.hist ++ [Event.extract p] }
    exact ⟨hf.1, hf.2.1, hf.2.2.1, hf.2.2.2⟩

theorem foldlM_extract_frame (cfg : Config) (w : World) (user : blog) (ns : List Post)
    (sh s1 : Shared)
    (h : ns.foldlM (fun s p => extractPost cfg w user (applyUpdate s p) p) sh = Except.ok s1) :
    s1.done = sh.done ∧
    s1.highestID = ns.foldl updateHighestID sh.highestID ∧
    extractedPosts s1.hist = extractedPosts sh.hist ++ ns ∧
    updatedPosts s1.hist = updatedPosts sh.hist ++ ns ∧
    stopCount s1.hist = stopCount sh.hist ∧
    s1.imageChannel = sh.imageChannel ++ ns.flatMap (newImages cfg w user) := by
  induction ns generalizing sh with
  | nil =>
    simp only [List.foldlM_nil, pure, Except.pure, Except.ok.injEq] at h
    subst h
    simp
  | cons p ps ih =>
    rw [List.foldlM_cons] at h
    cases hp : extractPost cfg w user (applyUpdate sh p) p with
    | error e => simp [hp, bind, Except.bind] at h
    | ok s2 =>
      simp only [hp, bind, Except.bind] at h
      obtain ⟨h1, h2, h3, h4, h5, h6⟩ := ih s2 h
      obtain ⟨f1, f2, f3, f4⟩ := extractPost_frame cfg w user _ _ _ hp
      refine ⟨?_, ?_, ?_, ?_, ?_, ?_⟩
      · rw [h1, f2]; rfl
      · rw [h2, f1]; rfl
      · rw [h3, f3]
        simp [applyUpdate, extractedPosts_append, extractedPosts]
      · rw [h4, f3]
        simp [applyUpdate, updatedPosts_append, updatedPosts]
      · rw [h5, f3]
        simp [applyUpdate, stopCount_append, stopCount]
      · rw [h6, f4]
        simp [applyUpdate]

/-- What a page leaves behind when its extraction returns: exactly the leading run of newer
posts is extracted and queued, that run and the post that ends it are entered into the
cursor, and the stop signal is fired when such a post exists. -/
theorem incrementalPage_effect (cfg : Config) (w : World) (user : blog) (newer : Post → Bool)
    (posts : List Post) (sh s1 : Shared)
    (h : incrementalPage cfg w user newer posts sh = Except.ok s1) :
    extractedPosts s1.hist = extractedPosts sh.hist ++ posts.takeWhile newer ∧
    updatedPosts s1.hist =
      updatedPosts sh.hist ++ (posts.takeWhile newer ++ (posts.dropWhile newer).take 1) ∧
    s1.highestID =
      (posts.takeWhile newer ++ (posts.dropWhile newer).take 1).foldl updateHighestID
        sh.highestID ∧
    s1.done = (sh.done || !(posts.dropWhile newer).isEmpty) ∧
    s1.imageChannel = sh.imageChannel ++ (posts.takeWhile newer).flatMap (newImages cfg w user) := by
  unfold incrementalPage at h
  cases hf : (posts.takeWhile newer).foldlM
      (fun s p => extractPost cfg w user (applyUpdate s p) p) sh with
  | error e => simp [hf, Except.map] at h
  | ok s2 =>
    simp only [hf, Except.map, Except.ok.injEq] at h
    obtain ⟨h1, h2, h3, h4, h5, h6⟩ := foldlM_extract_frame cfg w user _ _ _ hf
    cases hd : posts.dropWhile newer with
    | nil =>
      simp only [hd] at h
      subst h
      simp [h1, h2, h3, h4, h6]
    | cons q qs =>
      simp only [hd] at h
      subst h
      unfold fireStop applyUpdate
      by_cases hdone : sh.done = true
      · have : s2.done = true := by rw [h1, hdone]
        simp [this, h2, h3, h4, h6, hdone, extractedPosts_append, extractedPosts,
          updatedPosts_append, updatedPosts, List.foldl_append]
      · have : s2.done = false := by rw [h1]; simpa using hdone
        simp [this, h2, h3, h4, h6, extractedPosts_append, extractedPosts,
          updatedPosts_append, updatedPosts, List.foldl_append]

theorem stopTest_inRange (cfg : Config) (last : String) (p : Post) (hp : InIntRange p.ID) :
    (!stopTest cfg (decimalValue last : Int) p) =
      (decide (decimalValue last < decimalValue p.ID) || !cfg.updateMode) := by
  unfold stopTest
  rw [Atoi_inRange p.ID hp]
  cases cfg.updateMode
  · simp
  · by_cases h : decimalValue last < decimalValue p.ID
    · simp [h, not_le.2 h]
    · simp [h, not_lt.1 h]

theorem takeWhile_congr_mem {α : Type} (f g : α → Bool) (l : List α)
    (h : ∀ p ∈ l, f p = g p) : l.takeWhile f = l.takeWhile g := by
  induction l with
  | nil => rfl
  | cons p ps ih =>
    have ih2 := ih fun q hq => h q (List.mem_cons_of_mem _ hq)
    simp only [List.takeWhile, h p (List.mem_cons_self _ _), ih2]

theorem dropWhile_congr_mem {α : Type} (f g : α → Bool) (l : List α)
    (h : ∀ p ∈ l, f p = g p) : l.dropWhile f = l.dropWhile g := by
  induction l with
  | nil => rfl
  | cons p ps ih =>
    have ih2 := ih fun q hq => h q (List.mem_cons_of_mem _ hq)
    simp only [List.dropWhile, h p (List.mem_cons_self _ _), ih2]

theorem incrementalPage_congr (cfg : Config) (w : World) (user : blog)
    (f g : Post → Bool) (posts : List Post) (sh : Shared) (h : ∀ p ∈ posts, f p = g p) :
    incrementalPage cfg w user f posts sh = incrementalPage cfg w user g posts sh := by
  unfold incrementalPage
  rw [takeWhile_congr_mem f g posts h, dropWhile_congr_mem f g posts h]

/-- C2 (amended): for a last-known cursor and a page of identifiers that are decimal
strings an `int` holds, the extraction loop in update mode is `incrementalPage` for the
test `cursor < identifier`: it extracts and queues exactly the longest leading run of
posts numerically above the cursor, the first post at or below the cursor still enters
the cursor update, fires the stop signal and ends the page; with update mode off every
post is extracted and the stop signal is not fired. -/
theorem extractionTask_incremental (cfg : Config) (w : World) (user : blog)
    (posts : List Post) (sh : Shared) (hlast : InIntRange user.lastPostID)
    (hposts : ∀ p ∈ posts, InIntRange p.ID) :
    (cfg.updateMode = true →
      extractionTask cfg w user posts sh =
        incrementalPage cfg w user
          (fun p => decide (decimalValue user.lastPostID < decimalValue p.ID)) posts sh) ∧
    (cfg.updateMode = false →
      extractionTask cfg w user posts sh =
        incrementalPage cfg w user (fun _ => true) posts sh) ∧
    (∀ newer s1, incrementalPage cfg w user newer posts sh = Except.ok s1 →
      extractedPosts s1.hist = extractedPosts sh.hist ++ posts.takeWhile newer ∧
      updatedPosts s1.hist =
        updatedPosts sh.hist ++ (posts.takeWhile newer ++ (posts.dropWhile newer).take 1) ∧
      s1.highestID =
        (posts.takeWhile newer ++ (posts.dropWhile newer).take 1).foldl updateHighestID
          sh.highestID ∧
      s1.done = (sh.done || !(posts.dropWhile newer).isEmpty) ∧
      s1.imageChannel =
        sh.imageChannel ++ (posts.takeWhile newer).flatMap (newImages cfg w user)) := by
  have hrun : extractionTask cfg w user posts sh =
      incrementalPage cfg w user
        (fun p => !stopTest cfg (decimalValue user.lastPostID : Int) p) posts sh := by
    unfold extractionTask
    rw [Atoi_inRange _ hlast]
    exact postLoop_eq cfg w user _ posts sh
  refine ⟨?_, ?_, fun newer s1 h => incrementalPage_effect cfg w user newer posts sh s1 h⟩
  · intro hu
    rw [hrun]
    apply incrementalPage_congr
    intro p hp
    rw [stopTest_inRange cfg _ p (hposts p hp), hu]
    simp
  · intro hu
    rw [hrun]
    apply incrementalPage_congr
    intro p hp
    rw [stopTest_inRange cfg _ p (hposts p hp), hu]
    simp

/-- The incremental example of the specification, through C2: last-known cursor "100",
a page with identifiers "103", "102", "99". -/
theorem extractionTask_incremental_witness :
    extractionTask updateConfig sampleWorld sampleUser examplePage freshShared =
      incrementalPage updateConfig sampleWorld sampleUser
        (fun p => decide (decimalValue sampleUser.lastPostID < decimalValue p.ID))
        examplePage freshShared ∧
    (extractionTask updateConfig sampleWorld sampleUser examplePage freshShared).map
        (fun s => (s.highestID, s.done, (extractedPosts s.hist).map Post.ID)) =
      Except.ok ("103", true, ["103", "102"]) ∧
    (extractionTask updateConfig sampleWorld sampleUser examplePage freshShared).map
        (fun s => ((updatedPosts s.hist).map Post.ID, s.imageChannel, s.alreadyExists)) =
      Except.ok (["103", "102", "99"], [Image.mk "blog" "http://x/new.jpg" 0], (1 : Nat)) :=
  ⟨(extractionTask_incremental updateConfig sampleWorld sampleUser examplePage freshShared
      (by decide) (by decide)).1 rfl, by decide, by decide⟩

/-- C2 as stated fails for identifiers no `int` holds: with last-known cursor
"9223372036854775807" and a page holding the post "9223372036854775808", which is
numerically above the cursor, update mode extracts nothing and fires the stop signal,
because `Atoi` reads the identifier as the largest `int`. -/
theorem extractionTask_overflow_stops :
    decimalValue maxCursorUser.lastPostID < decimalValue "9223372036854775808" ∧
    Atoi maxCursorUser.lastPostID = (9223372036854775807, none) ∧
    (extractionTask updateConfig sampleWorld maxCursorUser
        [photoPost "9223372036854775808" "http://x/new.jpg" ""] freshShared).map
        (fun s => (s.done, (extractedPosts s.hist).map Post.ID, s.imageChannel)) =
      Except.ok (true, ([] : List String), ([] : List Image)) := by
  decide

/-! ## Executions of `scrape` -/

theorem run_append (cfg : Config) (w : World) (user : blog) (a b : List Sched) (c : Crawl) :
    run cfg w user c (a ++ b) = (run cfg w user c a).bind fun c1 => run cfg w user c1 b := by
  induction a generalizing c with
  | nil => rfl
  | cons e es ih =>
    simp only [List.cons_append, run]
    cases step cfg w user c e with
    | none => rfl
    | some c1 => exact ih c1

theorem map_eq_of_eq_some {α β : Type} (o : Option α) (a : α) (f : α → β) (b : β)
    (h : o = some a) (hb : o.map f = some b) : f a = b := by
  rw [h] at hb
  exact Option.some.inj hb

theorem run_cons_of_step (cfg : Config) (w : World) (user : blog) (c c1 : Crawl) (e : Sched)
    (es : List Sched) (h : step cfg w user c e = some c1) :
    run cfg w user c (e :: es) = run cfg w user c1 es := by
  simp only [run, h]

/-- A property that holds at the start and that every step keeps holds after every
schedule. -/
theorem run_invariant (cfg : Config) (w : World) (user : blog) (P : Crawl → Prop)
    (hstep : ∀ c e c1, P c → step cfg w user c e = some c1 → P c1)
    (sched : List Sched) (c c1 : Crawl) (hc : P c) (h : run cfg w user c sched = some c1) :
    P c1 := by
  induction sched generalizing c with
  | nil =>
    simp only [run, Option.some.injEq] at h
    exact h ▸ hc
  | cons e es ih =>
    simp only [run] at h
    cases hs : step cfg w user c e with
    | none => simp [hs] at h
    | some c2 =>
      simp only [hs] at h
      exact ih c2 (hstep c e c2 hc hs) h

/-- The steps an extraction goroutine can take, one case for each. -/
theorem taskStep_cases (cfg : Config) (w : World) (user : blog) (sh sh1 : Shared)
    (t t1 : TaskPc) (h : taskStep cfg w user sh t = some (Except.ok (sh1, t1))) :
    (∃ posts l, t = TaskPc.start posts ∧ sh1 = sh ∧ t1 = TaskPc.update l posts) ∨
    (∃ l, t = TaskPc.update l [] ∧ sh1 = sh ∧ t1 = TaskPc.exited) ∨
    (∃ l p rest, t = TaskPc.update l (p :: rest) ∧ sh1 = applyUpdate sh p ∧
      t1 = TaskPc.check l p rest) ∨
    (∃ l p rest, t = TaskPc.check l p rest ∧ stopTest cfg l p = true ∧ sh1 = fireStop sh ∧
      t1 = TaskPc.exited) ∨
    (∃ l p rest URLs, t = TaskPc.check l p rest ∧ stopTest cfg l p = false ∧
      parseDataForFiles cfg w p = Except.ok URLs ∧
      sh1 = { sh with hist := sh.hist ++ [Event.extract p] } ∧ t1 = TaskPc.send l p URLs rest) ∨
    (∃ l p rest, t = TaskPc.send l p [] rest ∧ sh1 = sh ∧ t1 = TaskPc.update l rest) ∨
    (∃ l p u us rest, t = TaskPc.send l p (u :: us) rest ∧
      sh1 = enqueueURL cfg w user p sh u ∧ t1 = TaskPc.send l p us rest) := by
  cases t with
  | start posts =>
    left
    simp only [taskStep, Option.some.injEq] at h
    cases hv : checkFatalError (valueOf (Atoi user.lastPostID)) with
    | error e => simp [hv, Except.map] at h
    | ok l =>
      simp only [hv, Except.map, Except.ok.injEq, Prod.mk.injEq] at h
      exact ⟨posts, l, rfl, h.1.symm, h.2.symm⟩
  | update l posts =>
    cases posts with
    | nil =>
      right; left
      simp only [taskStep, pure, Except.pure, Option.some.injEq, Except.ok.injEq,
        Prod.mk.injEq] at h
      exact ⟨l, rfl, h.1.symm, h.2.symm⟩
    | cons p rest =>
      right; right; left
      simp only [taskStep, pure, Except.pure, Option.some.injEq, Except.ok.injEq,
        Prod.mk.injEq] at h
      exact ⟨l, p, rest, rfl, h.1.symm, h.2.symm⟩
  | check l p rest =>
    by_cases hs : stopTest cfg l p = true
    · right; right; right; left
      simp only [taskStep, hs, if_true, pure, Except.pure, Option.some.injEq, Except.ok.injEq,
        Prod.mk.injEq] at h
      exact ⟨l, p, rest, rfl, hs, h.1.symm, h.2.symm⟩
    · right; right; right; right; left
      have hs2 : stopTest cfg l p = false := by simpa using hs
      simp only [taskStep, hs2, Bool.false_eq_true, if_false, Option.some.injEq] at h
      cases hp : parseDataForFiles cfg w p with
      | error e => simp [hp, Except.map] at h
      | ok URLs =>
        simp only [hp, Except.map, Except.ok.injEq, Prod.mk.injEq] at h
        exact ⟨l, p, rest, URLs, rfl, hs2, hp, h.1.symm, h.2.symm⟩
  | send l p URLs rest =>
    cases URLs with
    | nil =>
      right; right; right; right; right; left
      simp only [taskStep, pure, Except.pure, Option.some.injEq, Except.ok.injEq,
        Prod.mk.injEq] at h
      exact ⟨l, p, rest, rfl, h.1.symm, h.2.symm⟩
    | cons u us =>
      right; right; right; right; right; right
      simp only [taskStep, pure, Except.pure, Option.some.injEq, Except.ok.injEq,
        Prod.mk.injEq] at h
      exact ⟨l, p, u, us, rest, rfl, h.1.symm, h.2.symm⟩
  | exited => simp [taskStep] at h

/-- The request of a page either ends the process (the address did not parse) or is
recorded, and then, by its outcome, repeats the index, ends the loop, or starts a
goroutine and moves to the next index. -/
theorem fetchStep_cases (w : World) (user : blog) (c : Crawl) (o : FetchOutcome) :
    (fetchStep w user c o = { c with crashed := true } ∧
      ∃ e, makeTumblrURL w user c.i = Except.error e) ∨
    (∃ url, makeTumblrURL w user c.i = Except.ok url ∧
      ((o = FetchOutcome.transportError ∧
        fetchStep w user c o =
          { c with
            sh := { c.sh with hist := c.sh.hist ++ [Event.fetch c.i url none] }
            logged := c.logged + 1
            i := c.i - 1 + 1
            pc := LoopPc.check }) ∨
      (∃ contents, o = FetchOutcome.response contents ∧ decodePage w contents = [] ∧
        fetchStep w user c o =
          { c with
            sh := { c.sh with hist := c.sh.hist ++ [Event.fetch c.i url (some [])] }
            logged := checkError (decodeError w contents) c.logged
            pc := LoopPc.drain }) ∨
      (∃ contents p ps, o = FetchOutcome.response contents ∧
        decodePage w contents = p :: ps ∧
        fetchStep w user c o =
          { c with
            sh := { c.sh with hist := c.sh.hist ++ [Event.fetch c.i url (some (p :: ps))] }
            logged := checkError (decodeError w contents) c.logged
            tasks := c.tasks ++ [TaskPc.start (p :: ps)]
            i := c.i + 1
            pc := LoopPc.check }))) := by
  unfold fetchStep
  cases hm : makeTumblrURL w user c.i with
  | error e => exact Or.inl ⟨rfl, e, rfl⟩
  | ok url =>
    right
    refine ⟨url, rfl, ?_⟩
    cases o with
    | transportError => exact Or.inl ⟨rfl, rfl⟩
    | response contents =>
      right
      cases hd : decodePage w contents with
      | nil => exact Or.inl ⟨contents, rfl, hd, by simp [hd]⟩
      | cons p ps => exact Or.inr ⟨contents, p, ps, rfl, hd, by simp [hd]⟩

/-- The steps of `scrape`, one case for each. -/
theorem step_cases (cfg : Config) (w : World) (user : blog) (c c1 : Crawl) (e : Sched)
    (h : step cfg w user c e = some c1) :
    c.crashed = false ∧
    ((e = Sched.loopCheck ∧ c.pc = LoopPc.check ∧
        c1 = if c.sh.done then { c with pc := LoopPc.drain } else { c with pc := LoopPc.wait }) ∨
     (e = Sched.loopSeeDone ∧ c.pc = LoopPc.wait ∧ c.sh.done = true ∧
        c1 = { c with pc := LoopPc.drain }) ∨
     (e = Sched.loopTick ∧ c.pc = LoopPc.wait ∧ c1 = { c with pc := LoopPc.request }) ∨
     (∃ o, e = Sched.loopGet o ∧ c.pc = LoopPc.request ∧ c1 = fetchStep w user c o) ∨
     (e = Sched.loopDrain ∧ c.pc = LoopPc.drain ∧ c.tasks.all TaskPc.isExited = true ∧
        c1 = { c with closed := true, persisted := some c.sh.highestID, pc := LoopPc.finished }) ∨
     (∃ k t, e = Sched.task k ∧ c.tasks[k]? = some t ∧
        ((c1 = { c with crashed := true } ∧
            ∃ f, taskStep cfg w user c.sh t = some (Except.error f)) ∨
         (∃ sh1 t1, taskStep cfg w user c.sh t = some (Except.ok (sh1, t1)) ∧
            c1 = { c with sh := sh1, tasks := c.tasks.set k t1 })))) := by
  cases e with
  | loopCheck =>
    simp only [step] at h
    split at h
    · rename_i hc
      simp only [Option.some.injEq] at h
      exact ⟨hc.1, Or.inl ⟨rfl, hc.2, h.symm⟩⟩
    · simp at h
  | loopSeeDone =>
    simp only [step] at h
    split at h
    · rename_i hc
      simp only [Option.some.injEq] at h
      exact ⟨hc.1, Or.inr (Or.inl ⟨rfl, hc.2.1, hc.2.2, h.symm⟩)⟩
    · simp at h
  | loopTick =>
    simp only [step] at h
    split at h
    · rename_i hc
      simp only [Option.some.injEq] at h
      exact ⟨hc.1, Or.inr (Or.inr (Or.inl ⟨rfl, hc.2, h.symm⟩))⟩
    · simp at h
  | loopGet o =>
    simp only [step] at h
    split at h
    · rename_i hc
      simp only [Option.some.injEq] at h
      exact ⟨hc.1, Or.inr (Or.inr (Or.inr (Or.inl ⟨o, rfl, hc.2, h.symm⟩)))⟩
    · simp at h
  | loopDrain =>
    simp only [step] at h
    split at h
    · rename_i hc
      simp only [Option.some.injEq] at h
      exact ⟨hc.1, Or.inr (Or.inr (Or.inr (Or.inr (Or.inl ⟨rfl, hc.2.1, hc.2.2, h.symm⟩))))⟩
    · simp at h
  | task k =>
    simp only [step] at h
    split at h
    · rename_i hc
      refine ⟨hc, Or.inr (Or.inr (Or.inr (Or.inr (Or.inr ?_))))⟩
      cases hg : c.tasks[k]? with
      | none => simp [hg] at h
      | some t =>
        refine ⟨k, t, rfl, hg, ?_⟩
        simp only [hg] at h
        cases ht : taskStep cfg w user c.sh t with
        | none => simp [ht] at h
        | some r =>
          cases r with
          | error f =>
            simp only [ht, Option.some.injEq] at h
            exact Or.inl ⟨h.symm, f, rfl⟩
          | ok v =>
            obtain ⟨sh1, t1⟩ := v
            simp only [ht, Option.some.injEq] at h
            exact Or.inr ⟨sh1, t1, rfl, h.symm⟩
    · simp at h

/-- What a step of an extraction goroutine does to the shared state: it requests no page,
it never reopens `done`, and it leaves the cursor alone unless it is the cursor update of
a post. -/
theorem taskStep_effect (cfg : Config) (w : World) (user : blog) (sh sh1 : Shared)
    (t t1 : TaskPc) (h : taskStep cfg w user sh t = some (Except.ok (sh1, t1))) :
    fetchedPages sh1.hist = fetchedPages sh.hist ∧
    (sh.done = true → sh1.done = true) ∧
    ((sh1.highestID = sh.highestID ∧ updatedPosts sh1.hist = updatedPosts sh.hist) ∨
      ∃ p, sh1.highestID = updateHighestID sh.highestID p ∧
        updatedPosts sh1.hist = updatedPosts sh.hist ++ [p]) := by
  rcases taskStep_cases cfg w user sh sh1 t t1 h with
    ⟨_, _, _, rfl, _⟩ | ⟨_, _, rfl, _⟩ | ⟨_, p, _, _, rfl, _⟩ | ⟨_, _, _, _, _, rfl, _⟩ |
    ⟨_, _, _, _, _, _, _, rfl, _⟩ | ⟨_, _, _, _, rfl, _⟩ | ⟨_, q, u, _, _, _, rfl, _⟩
  · exact ⟨rfl, id, Or.inl ⟨rfl, rfl⟩⟩
  · exact ⟨rfl, id, Or.inl ⟨rfl, rfl⟩⟩
  · refine ⟨?_, id, Or.inr ⟨p, rfl, ?_⟩⟩
    · simp [applyUpdate, fetchedPages_append, fetchedPages]
    · simp [applyUpdate, updatedPosts_append, updatedPosts]
  · unfold fireStop
    by_cases hd : sh.done = true
    · simp [hd]
    · simp [hd, fetchedPages_append, fetchedPages, updatedPosts_append, updatedPosts]
  · simp [fetchedPages_append, fetchedPages, updatedPosts_append, updatedPosts]
  · exact ⟨rfl, id, Or.inl ⟨rfl, rfl⟩⟩
  · have hf := enqueueURL_frame cfg w user q sh u
    rw [hf.2.2, hf.1, hf.2.1]
    exact ⟨rfl, id, Or.inl ⟨rfl, rfl⟩⟩

/-- Once the paging loop is left it stays left and no page is requested any more. -/
theorem no_fetch_after_loop (cfg : Config) (w : World) (user : blog) (sched : List Sched)
    (c c1 : Crawl) (hpc : c.pc = LoopPc.drain ∨ c.pc = LoopPc.finished)
    (h : run cfg w user c sched = some c1) :
    (c1.pc = LoopPc.drain ∨ c1.pc = LoopPc.finished) ∧
    fetchedPages c1.sh.hist = fetchedPages c.sh.hist := by
  refine run_invariant cfg w user
    (fun x => (x.pc = LoopPc.drain ∨ x.pc = LoopPc.finished) ∧
      fetchedPages x.sh.hist = fetchedPages c.sh.hist) ?_ sched c c1 ⟨hpc, rfl⟩ h
  intro x e x1 hx hs
  obtain ⟨hpx, hfx⟩ := hx
  obtain ⟨_, hcase⟩ := step_cases cfg w user x x1 e hs
  rcases hcase with ⟨_, hp, _⟩ | ⟨_, hp, _⟩ | ⟨_, hp, _⟩ | ⟨_, _, hp, _⟩ | ⟨_, _, _, rfl⟩ |
    ⟨k, t, _, _, ⟨rfl, _⟩ | ⟨sh1, t1, ht, rfl⟩⟩
  · rcases hpx with h1 | h1 <;> rw [h1] at hp <;> cases hp
  · rcases hpx with h1 | h1 <;> rw [h1] at hp <;> cases hp
  · rcases hpx with h1 | h1 <;> rw [h1] at hp <;> cases hp
  · rcases hpx with h1 | h1 <;> rw [h1] at hp <;> cases hp
  · exact ⟨Or.inr rfl, hfx⟩
  · exact ⟨hpx, hfx⟩
  · exact ⟨hpx, (taskStep_effect cfg w user _ _ _ _ ht).1.trans hfx⟩

/-- With the stop signal fired and the paging loop at the outer `select` or past the
loop, no page is requested any more. -/
theorem no_fetch_after_done_check (cfg : Config) (w : World) (user : blog)
    (sched : List Sched) (c c1 : Crawl) (hdone : c.sh.done = true)
    (hpc : c.pc = LoopPc.check ∨ c.pc = LoopPc.drain ∨ c.pc = LoopPc.finished)
    (h : run cfg w user c sched = some c1) :
    c1.sh.done = true ∧ fetchedPages c1.sh.hist = fetchedPages c.sh.hist := by
  have key := run_invariant cfg w user
    (fun x => x.sh.done = true ∧
      (x.pc = LoopPc.check ∨ x.pc = LoopPc.drain ∨ x.pc = LoopPc.finished) ∧
      fetchedPages x.sh.hist = fetchedPages c.sh.hist) ?_ sched c c1 ⟨hdone, hpc, rfl⟩ h
  · exact ⟨key.1, key.2.2⟩
  intro x e x1 hx hs
  obtain ⟨hdx, hpx, hfx⟩ := hx
  obtain ⟨_, hcase⟩ := step_cases cfg w user x x1 e hs
  rcases hcase with ⟨_, hp, rfl⟩ | ⟨_, hp, _⟩ | ⟨_, hp, _⟩ | ⟨_, _, hp, _⟩ | ⟨_, _, _, rfl⟩ |
    ⟨k, t, _, _, ⟨rfl, _⟩ | ⟨sh1, t1, ht, rfl⟩⟩
  · rw [hdx, if_pos rfl]
    exact ⟨hdx, Or.inr (Or.inl rfl), hfx⟩
  · rcases hpx with h1 | h1 | h1 <;> rw [h1] at hp <;> cases hp
  · rcases hpx with h1 | h1 | h1 <;> rw [h1] at hp <;> cases hp
  · rcases hpx with h1 | h1 | h1 <;> rw [h1] at hp <;> cases hp
  · exact ⟨hdx, Or.inr (Or.inr rfl), hfx⟩
  · exact ⟨hdx, hpx, hfx⟩
  · obtain ⟨hf, hd, _⟩ := taskStep_effect cfg w user _ _ _ _ ht
    exact ⟨hd hdx, hpx, hf.trans hfx⟩

/-- After the stop signal has fired, the paging loop requests at most one more page, and
none unless it had already passed the outer `select`: it was blocked in the inner
`select`, or it had received the tick and not yet made the request. -/
theorem fetch_after_stop (cfg : Config) (w : World) (user : blog) (sched : List Sched)
    (c c1 : Crawl) (hdone : c.sh.done = true) (h : run cfg w user c sched = some c1) :
    c1.sh.done = true ∧
    ∃ extra, fetchedPages c1.sh.hist = fetchedPages c.sh.hist ++ extra ∧
      extra.length ≤ (if c.pc = LoopPc.wait ∨ c.pc = LoopPc.request then 1 else 0) := by
  induction sched generalizing c with
  | nil =>
    simp only [run, Option.some.injEq] at h
    subst h
    exact ⟨hdone, [], by simp, by simp⟩
  | cons e es ih =>
    simp only [run] at h
    cases hs : step cfg w user c e with
    | none => simp [hs] at h
    | some c2 =>
      simp only [hs] at h
      obtain ⟨_, hcase⟩ := step_cases cfg w user c c2 e hs
      rcases hcase with ⟨_, hp, rfl⟩ | ⟨_, hp, _, rfl⟩ | ⟨_, hp, rfl⟩ | ⟨o, _, hp, rfl⟩ |
        ⟨_, hp, _, rfl⟩ | ⟨k, t, _, _, ⟨rfl, _⟩ | ⟨sh1, t1, ht, rfl⟩⟩
      · rw [hdone, if_pos rfl] at h
        have h2 := no_fetch_after_done_check cfg w user es _ c1 (by exact hdone)
          (Or.inr (Or.inl rfl)) h
        exact ⟨h2.1, [], by simpa using h2.2, by simp⟩
      · have h2 := no_fetch_after_done_check cfg w user es _ c1 (by exact hdone)
          (Or.inr (Or.inl rfl)) h
        exact ⟨h2.1, [], by simpa using h2.2, by simp⟩
      · obtain ⟨h2, extra, h3, h4⟩ := ih _ (by exact hdone) h
        refine ⟨h2, extra, h3, ?_⟩
        rw [if_pos (Or.inl hp)]
        simp only [or_true, if_true] at h4
        exact h4
      · rw [if_pos (Or.inr hp)]
        rcases fetchStep_cases w user c o with ⟨hf, _⟩ |
          ⟨url, _, ⟨_, hf⟩ | ⟨_, _, _, hf⟩ | ⟨_, p, ps, _, _, hf⟩⟩
        · rw [hf] at h
          obtain ⟨h2, extra, h3, h4⟩ := ih _ (by exact hdone) h
          rw [if_pos (Or.inr (by exact hp))] at h4
          exact ⟨h2, extra, h3, h4⟩
        · rw [hf] at h
          have h2 := no_fetch_after_done_check cfg w user es _ c1 (by exact hdone)
            (Or.inl rfl) h
          refine ⟨h2.1, [(c.i, none)], ?_, by simp⟩
          rw [h2.2]
          simp [fetchedPages_append, fetchedPages]
        · rw [hf] at h
          have h2 := no_fetch_after_done_check cfg w user es _ c1 (by exact hdone)
            (Or.inr (Or.inl rfl)) h
          refine ⟨h2.1, [(c.i, some [])], ?_, by simp⟩
          rw [h2.2]
          simp [fetchedPages_append, fetchedPages]
        · rw [hf] at h
          have h2 := no_fetch_after_done_check cfg w user es _ c1 (by exact hdone)
            (Or.inl rfl) h
          refine ⟨h2.1, [(c.i, some (p :: ps))], ?_, by simp⟩
          rw [h2.2]
          simp [fetchedPages_append, fetchedPages]
      · have h2 := no_fetch_after_done_check cfg w user es _ c1 (by exact hdone)
          (Or.inr (Or.inr rfl)) h
        exact ⟨h2.1, [], by simpa using h2.2, by simp⟩
      · have h2 := ih _ (by exact hdone) h
        exact h2
      · obtain ⟨hf, hd, _⟩ := taskStep_effect cfg w user _ _ _ _ ht
        have h2 := ih _ (by exact hd hdone) h
        rw [hf] at h2
        exact h2

/-- C3 (amended): in incremental mode, in every execution, once an extraction goroutine
has reached a post whose identifier is at or below the last-known cursor, the stop
signal is fired, and from then on the paging loop requests at most one more page, and
none at all unless at that moment it had already passed the outer `select` of
`shouldFinishScraping`: it was blocked in the inner `select`, or it had received the
limiter's tick and not yet called `http.Get`.  (Pages requested between the fetch of the
stopping page and that moment are not excluded.) -/
theorem no_fetch_after_stop_test (cfg : Config) (w : World) (user : blog) (c c1 c2 : Crawl)
    (k : Nat) (l : Int) (p : Post) (rest : List Post) (sched : List Sched)
    (hmode : cfg.updateMode = true) (hk : c.tasks[k]? = some (TaskPc.check l p rest))
    (hold : (Atoi p.ID).1 ≤ l) (hstep : step cfg w user c (Sched.task k) = some c1)
    (hrun : run cfg w user c1 sched = some c2) :
    c1.sh.done = true ∧ c2.sh.done = true ∧
    ∃ extra, fetchedPages c2.sh.hist = fetchedPages c.sh.hist ++ extra ∧
      extra.length ≤ (if c.pc = LoopPc.wait ∨ c.pc = LoopPc.request then 1 else 0) := by
  have hst : stopTest cfg l p = true := by simp [stopTest, hold, hmode]
  obtain ⟨_, hcase⟩ := step_cases cfg w user c c1 _ hstep
  rcases hcase with ⟨h0, _⟩ | ⟨h0, _⟩ | ⟨h0, _⟩ | ⟨_, h0, _⟩ | ⟨h0, _⟩ |
    ⟨k1, t, hk1, ht, ⟨_, f, hf⟩ | ⟨sh1, t1, hts, rfl⟩⟩
  · cases h0
  · cases h0
  · cases h0
  · cases h0
  · cases h0
  · cases hk1
    rw [hk] at ht
    cases ht
    simp [taskStep, hst, pure, Except.pure] at hf
  · cases hk1
    rw [hk] at ht
    cases ht
    simp only [taskStep, hst, if_true, pure, Except.pure, Option.some.injEq, Except.ok.injEq,
      Prod.mk.injEq] at hts
    obtain ⟨hsh, _⟩ := hts
    have hd : sh1.done = true := by
      rw [← hsh]
      unfold fireStop
      by_cases hx : c.sh.done = true <;> simp [hx]
    have hfp : fetchedPages sh1.hist = fetchedPages c.sh.hist := by
      rw [← hsh]
      unfold fireStop
      by_cases hx : c.sh.done = true <;> simp [hx, fetchedPages_append, fetchedPages]
    obtain ⟨h2, extra, h3, h4⟩ := fetch_after_stop cfg w user sched _ c2 (by exact hd) hrun
    exact ⟨hd, h2, extra, by rw [h3, hfp], h4⟩

/-- C3 (amended) at the incremental example, twice: the goroutine of page 1 reaches "99"
while the paging loop is blocked in its inner `select`, and while the paging loop has
received the tick and not yet made the request; either way the one request still made is
page 2. -/
theorem no_fetch_after_stop_test_witness :
    (∃ c1 c2, step updateConfig sampleWorld sampleUser stoppingCrawl (Sched.task 0) = some c1 ∧
      run updateConfig sampleWorld sampleUser c1
        [Sched.loopTick, Sched.loopGet (FetchOutcome.response "page-98"), Sched.loopCheck]
        = some c2 ∧
      fetchedIndices c2.sh.hist = [1, 2] ∧
      c1.sh.done = true ∧ c2.sh.done = true ∧
      ∃ extra, fetchedPages c2.sh.hist = fetchedPages stoppingCrawl.sh.hist ++ extra ∧
        extra.length ≤
          (if stoppingCrawl.pc = LoopPc.wait ∨ stoppingCrawl.pc = LoopPc.request then 1 else 0)) ∧
    (∃ c1 c2, step updateConfig sampleWorld sampleUser tickedCrawl (Sched.task 0) = some c1 ∧
      run updateConfig sampleWorld sampleUser c1
        [Sched.loopGet (FetchOutcome.response "page-98"), Sched.loopCheck] = some c2 ∧
      fetchedIndices c2.sh.hist = [1, 2] ∧
      c1.sh.done = true ∧ c2.sh.done = true ∧
      ∃ extra, fetchedPages c2.sh.hist = fetchedPages tickedCrawl.sh.hist ++ extra ∧
        extra.length ≤
          (if tickedCrawl.pc = LoopPc.wait ∨ tickedCrawl.pc = LoopPc.request then 1 else 0)) := by
  constructor
  · obtain ⟨c1, h1⟩ := Option.isSome_iff_exists.1
      (by decide : (step updateConfig sampleWorld sampleUser stoppingCrawl (Sched.task 0)).isSome
        = true)
    obtain ⟨c2, h2⟩ := Option.isSome_iff_exists.1
      (by decide : (run updateConfig sampleWorld sampleUser stoppingCrawl
        [Sched.task 0, Sched.loopTick, Sched.loopGet (FetchOutcome.response "page-98"),
         Sched.loopCheck]).isSome = true)
    have h3 := map_eq_of_eq_some _ c2 (fun c => fetchedIndices c.sh.hist) [1, 2] h2 (by decide)
    rw [run_cons_of_step _ _ _ _ _ _ _ h1] at h2
    exact ⟨c1, c2, h1, h2, h3,
      no_fetch_after_stop_test updateConfig sampleWorld sampleUser stoppingCrawl c1 c2 0 100
        (postWithID "99") [] _ rfl rfl (by decide) h1 h2⟩
  · obtain ⟨c1, h1⟩ := Option.isSome_iff_exists.1
      (by decide : (step updateConfig sampleWorld sampleUser tickedCrawl (Sched.task 0)).isSome
        = true)
    obtain ⟨c2, h2⟩ := Option.isSome_iff_exists.1
      (by decide : (run updateConfig sampleWorld sampleUser tickedCrawl
        [Sched.task 0, Sched.loopGet (FetchOutcome.response "page-98"),
         Sched.loopCheck]).isSome = true)
    have h3 := map_eq_of_eq_some _ c2 (fun c => fetchedIndices c.sh.hist) [1, 2] h2 (by decide)
    rw [run_cons_of_step _ _ _ _ _ _ _ h1] at h2
    exact ⟨c1, c2, h1, h2, h3,
      no_fetch_after_stop_test updateConfig sampleWorld sampleUser tickedCrawl c1 c2 0 100
        (postWithID "99") [] _ rfl rfl (by decide) h1 h2⟩

/-- C3 as stated fails: with last-known cursor "100" in update mode, page 1 holds the
post "99", and page 2 is requested all the same, before the goroutine of page 1 has
run. -/
theorem fetch_past_stopping_page :
    updateConfig.updateMode = true ∧
    decimalValue "99" ≤ decimalValue sampleUser.lastPostID ∧
    (run updateConfig sampleWorld sampleUser Crawl.init
        [Sched.loopCheck, Sched.loopTick,
         Sched.loopGet (FetchOutcome.response "page-103-102-99"),
         Sched.loopCheck, Sched.loopTick,
         Sched.loopGet (FetchOutcome.response "page-98")]).map
      (fun c => (fetchedPages c.sh.hist).map fun x => (x.1, x.2.map (List.map Post.ID))) =
      some [(1, some ["103", "102", "99"]), (2, some ["98"])] := by
  decide

/-- The state `tickedCrawl` is reached from the start, and from it the stop signal fires
before page 2 is requested: the request comes although the paging loop was not blocked
in its inner `select` when the signal fired. -/
theorem request_after_tick_and_stop :
    (run updateConfig sampleWorld sampleUser Crawl.init
        [Sched.loopCheck, Sched.loopTick,
         Sched.loopGet (FetchOutcome.response "page-103-102-99"),
         Sched.task 0, Sched.task 0, Sched.task 0, Sched.task 0,
         Sched.task 0, Sched.task 0, Sched.task 0, Sched.task 0,
         Sched.loopCheck, Sched.loopTick]).map
      (fun c => ((c.i, c.pc, c.sh.done), (c.sh.highestID, fetchedIndices c.sh.hist))) =
      some ((tickedCrawl.i, tickedCrawl.pc, tickedCrawl.sh.done),
        (tickedCrawl.sh.highestID, fetchedIndices tickedCrawl.sh.hist)) ∧
    (run updateConfig sampleWorld sampleUser Crawl.init
        [Sched.loopCheck, Sched.loopTick,
         Sched.loopGet (FetchOutcome.response "page-103-102-99"),
         Sched.task 0, Sched.task 0, Sched.task 0, Sched.task 0,
         Sched.task 0, Sched.task 0, Sched.task 0, Sched.task 0,
         Sched.loopCheck, Sched.loopTick, Sched.task 0,
         Sched.loopGet (FetchOutcome.response "page-98")]).map
      (fun c => ((c.sh.done, stopCount c.sh.hist), (fetchedIndices c.sh.hist,
        fetchedIndices (c.sh.hist.dropWhile fun e => !(e matches Event.stop))))) =
      some ((true, 1), ([1, 2], [2])) := by
  decide

/-- C4 (amended): a page whose payload fails to decode is requested and recorded like any
other; the error is logged and is not fatal, and the paging loop goes on by the posts
the decoder left in the record.  With none left, as for a text that is no JSON at all,
the loop is left to wait for the extraction goroutines, and no page is requested
afterwards, whatever is scheduled.  With some left, a goroutine is started for them, the
index moves on by one, and unless the stop signal has fired the loop can go on to
request the page of that next index. -/
theorem malformed_page_follows_posts (cfg : Config) (w : World) (user : blog) (c : Crawl)
    (contents : String) (url : URL) (hpc : c.pc = LoopPc.request) (hcr : c.crashed = false)
    (hurl : makeTumblrURL w user c.i = Except.ok url)
    (hbad : decodeError w contents = true) :
    ∃ c1, step cfg w user c (Sched.loopGet (FetchOutcome.response contents)) = some c1 ∧
      c1.crashed = false ∧ c1.logged = c.logged + 1 ∧
      fetchedPages c1.sh.hist =
        fetchedPages c.sh.hist ++ [(c.i, some (decodePage w contents))] ∧
      (decodePage w contents = [] →
        c1.pc = LoopPc.drain ∧ c1.tasks = c.tasks ∧
        ∀ sched c2, run cfg w user c1 sched = some c2 →
          fetchedPages c2.sh.hist = fetchedPages c1.sh.hist) ∧
      (decodePage w contents ≠ [] →
        c1.pc = LoopPc.check ∧ c1.i = c.i + 1 ∧
        c1.tasks = c.tasks ++ [TaskPc.start (decodePage w contents)] ∧
        (c.sh.done = false → ∀ o url1, makeTumblrURL w user (c.i + 1) = Except.ok url1 →
          ∃ c2, run cfg w user c1 [Sched.loopCheck, Sched.loopTick, Sched.loopGet o]
              = some c2 ∧
            fetchedIndices c2.sh.hist = fetchedIndices c1.sh.hist ++ [c.i + 1])) := by
  have hs : step cfg w user c (Sched.loopGet (FetchOutcome.response contents)) =
      some (fetchStep w user c (FetchOutcome.response contents)) := by
    simp [step, hpc, hcr]
  refine ⟨_, hs, ?_⟩
  cases hd : decodePage w contents with
  | nil =>
    have hf : fetchStep w user c (FetchOutcome.response contents) =
        { c with
          sh := { c.sh with hist := c.sh.hist ++ [Event.fetch c.i url (some [])] }
          logged := c.logged + 1
          pc := LoopPc.drain } := by
      simp [fetchStep, hurl, hd, hbad, checkError]
    rw [hf]
    refine ⟨hcr, rfl, ?_, ?_, ?_⟩
    · simp [fetchedPages_append, fetchedPages]
    · intro _
      refine ⟨rfl, rfl, ?_⟩
      intro sched c2 h2
      exact (no_fetch_after_loop cfg w user sched _ c2 (Or.inl rfl) h2).2
    · intro hne
      exact absurd rfl hne
  | cons p ps =>
    have hf : fetchStep w user c (FetchOutcome.response contents) =
        { c with
          sh := { c.sh with hist := c.sh.hist ++ [Event.fetch c.i url (some (p :: ps))] }
          logged := c.logged + 1
          tasks := c.tasks ++ [TaskPc.start (p :: ps)]
          i := c.i + 1
          pc := LoopPc.check } := by
      simp [fetchStep, hurl, hd, hbad, checkError]
    rw [hf]
    refine ⟨hcr, rfl, ?_, ?_, ?_⟩
    · simp [fetchedPages_append, fetchedPages]
    · intro h0
      cases h0
    · intro _
      refine ⟨rfl, rfl, rfl, ?_⟩
      intro hnd o url1 hurl1
      refine ⟨fetchStep w user
            { c with
              sh := { c.sh with hist := c.sh.hist ++ [Event.fetch c.i url (some (p :: ps))] }
              logged := c.logged + 1
              tasks := c.tasks ++ [TaskPc.start (p :: ps)]
              i := c.i + 1
              pc := LoopPc.request } o, ?_, ?_⟩
      · simp [run, step, hcr, hnd]
      · rcases fetchStep_cases w user
            { c with
              sh := { c.sh with hist := c.sh.hist ++ [Event.fetch c.i url (some (p :: ps))] }
              logged := c.logged + 1
              tasks := c.tasks ++ [TaskPc.start (p :: ps)]
              i := c.i + 1
              pc := LoopPc.request } o with ⟨_, e, he⟩ |
          ⟨url2, _, ⟨_, hg⟩ | ⟨_, _, _, hg⟩ | ⟨_, _, _, _, _, hg⟩⟩
        · rw [hurl1] at he
          cases he
        · rw [hg]
          simp [fetchedIndices, fetchedPages_append, fetchedPages]
        · rw [hg]
          simp [fetchedIndices, fetchedPages_append, fetchedPages]
        · rw [hg]
          simp [fetchedIndices, fetchedPages_append, fetchedPages]

/-- C4 (amended) at a first page, twice: the payload is an error page and leaves no post,
and the payload carries a number where an identifier is expected and leaves its two
posts. -/
theorem malformed_page_follows_posts_witness :
    (decodeError sampleWorld "<html>busy</html>" = true ∧
      (decodePage sampleWorld "<html>busy</html>").length = 0 ∧
      ∃ c1, step fullConfig sampleWorld sampleUser requestingCrawl
          (Sched.loopGet (FetchOutcome.response "<html>busy</html>")) = some c1 ∧
        c1.crashed = false ∧ c1.logged = requestingCrawl.logged + 1 ∧
        fetchedPages c1.sh.hist = fetchedPages requestingCrawl.sh.hist ++
          [(requestingCrawl.i, some (decodePage sampleWorld "<html>busy</html>"))] ∧
        (decodePage sampleWorld "<html>busy</html>" = [] →
          c1.pc = LoopPc.drain ∧ c1.tasks = requestingCrawl.tasks ∧
          ∀ sched c2, run fullConfig sampleWorld sampleUser c1 sched = some c2 →
            fetchedPages c2.sh.hist = fetchedPages c1.sh.hist) ∧
        (decodePage sampleWorld "<html>busy</html>" ≠ [] →
          c1.pc = LoopPc.check ∧ c1.i = requestingCrawl.i + 1 ∧
          c1.tasks = requestingCrawl.tasks ++
            [TaskPc.start (decodePage sampleWorld "<html>busy</html>")] ∧
          (requestingCrawl.sh.done = false → ∀ o url1,
            makeTumblrURL sampleWorld sampleUser (requestingCrawl.i + 1) = Except.ok url1 →
            ∃ c2, run fullConfig sampleWorld sampleUser c1
                [Sched.loopCheck, Sched.loopTick, Sched.loopGet o] = some c2 ∧
              fetchedIndices c2.sh.hist =
                fetchedIndices c1.sh.hist ++ [requestingCrawl.i + 1]))) ∧
    (decodeError sampleWorld "page-97-id-number" = true ∧
      (decodePage sampleWorld "page-97-id-number").length = 2 ∧
      ∃ c1, step fullConfig sampleWorld sampleUser requestingCrawl
          (Sched.loopGet (FetchOutcome.response "page-97-id-number")) = some c1 ∧
        c1.crashed = false ∧ c1.logged = requestingCrawl.logged + 1 ∧
        fetchedPages c1.sh.hist = fetchedPages requestingCrawl.sh.hist ++
          [(requestingCrawl.i, some (decodePage sampleWorld "page-97-id-number"))] ∧
        (decodePage sampleWorld "page-97-id-number" = [] →
          c1.pc = LoopPc.drain ∧ c1.tasks = requestingCrawl.tasks ∧
          ∀ sched c2, run fullConfig sampleWorld sampleUser c1 sched = some c2 →
            fetchedPages c2.sh.hist = fetchedPages c1.sh.hist) ∧
        (decodePage sampleWorld "page-97-id-number" ≠ [] →
          c1.pc = LoopPc.check ∧ c1.i = requestingCrawl.i + 1 ∧
          c1.tasks = requestingCrawl.tasks ++
            [TaskPc.start (decodePage sampleWorld "page-97-id-number")] ∧
          (requestingCrawl.sh.done = false → ∀ o url1,
            makeTumblrURL sampleWorld sampleUser (requestingCrawl.i + 1) = Except.ok url1 →
            ∃ c2, run fullConfig sampleWorld sampleUser c1
                [Sched.loopCheck, Sched.loopTick, Sched.loopGet o] = some c2 ∧
              fetchedIndices c2.sh.hist =
                fetchedIndices c1.sh.hist ++ [requestingCrawl.i + 1]))) :=
  ⟨⟨by decide, by decide,
    malformed_page_follows_posts fullConfig sampleWorld sampleUser requestingCrawl
      "<html>busy</html>" ⟨"http", "http://blog.tumblr.com/api/read/json", "", "num=50&start=0"⟩
      rfl rfl (by decide) (by decide)⟩,
   ⟨by decide, by decide,
    malformed_page_follows_posts fullConfig sampleWorld sampleUser requestingCrawl
      "page-97-id-number" ⟨"http", "http://blog.tumblr.com/api/read/json", "", "num=50&start=0"⟩
      rfl rfl (by decide) (by decide)⟩⟩

/-- C4 as stated fails: the payload of page 1 does not decode and yields zero posts; the
paging loop is left, and no schedule makes it request page 2. -/
theorem malformed_page_stops_crawl :
    decodeError sampleWorld "<html>busy</html>" = true ∧
    (decodePage sampleWorld "<html>busy</html>").length = 0 ∧
    (run fullConfig sampleWorld sampleUser Crawl.init
        [Sched.loopCheck, Sched.loopTick,
         Sched.loopGet (FetchOutcome.response "<html>busy</html>")]).map
      (fun c => (c.pc, fetchedIndices c.sh.hist, c.logged, c.crashed)) =
      some (LoopPc.drain, [1], 1, false) ∧
    ¬ ∃ sched c2, run fullConfig sampleWorld sampleUser Crawl.init
        ([Sched.loopCheck, Sched.loopTick,
          Sched.loopGet (FetchOutcome.response "<html>busy</html>")] ++ sched)
        = some c2 ∧ fetchedIndices c2.sh.hist ≠ [1] := by
  refine ⟨by decide, by decide, by decide, ?_⟩
  rintro ⟨sched, c2, hrun, hne⟩
  rw [run_append] at hrun
  cases h1 : run fullConfig sampleWorld sampleUser Crawl.init
      [Sched.loopCheck, Sched.loopTick,
       Sched.loopGet (FetchOutcome.response "<html>busy</html>")] with
  | none => simp [h1] at hrun
  | some c1 =>
    simp only [h1, Option.bind] at hrun
    have hpc : c1.pc = LoopPc.drain := by
      have : (run fullConfig sampleWorld sampleUser Crawl.init
          [Sched.loopCheck, Sched.loopTick,
           Sched.loopGet (FetchOutcome.response "<html>busy</html>")]).map
          (fun c => c.pc) = some LoopPc.drain := by decide
      rw [h1] at this
      simpa using this
    have hfi : fetchedIndices c1.sh.hist = [1] := by
      have : (run fullConfig sampleWorld sampleUser Crawl.init
          [Sched.loopCheck, Sched.loopTick,
           Sched.loopGet (FetchOutcome.response "<html>busy</html>")]).map
          (fun c => fetchedIndices c.sh.hist) = some [1] := by decide
      rw [h1] at this
      simpa using this
    have h3 := (no_fetch_after_loop fullConfig sampleWorld sampleUser sched c1 c2
      (Or.inl hpc) hrun).2
    apply hne
    simp only [fetchedIndices, h3] at hfi ⊢
    exact hfi

/-- The payload with a number for an identifier fails to decode and still carries two
posts: their goroutine is started and page 2 is requested next. -/
theorem malformed_page_with_posts_goes_on :
    decodeError sampleWorld "page-97-id-number" = true ∧
    (run fullConfig sampleWorld sampleUser Crawl.init
        [Sched.loopCheck, Sched.loopTick,
         Sched.loopGet (FetchOutcome.response "page-97-id-number"),
         Sched.loopCheck, Sched.loopTick,
         Sched.loopGet (FetchOutcome.response "empty")]).map
      (fun c => ((c.pc, fetchedIndices c.sh.hist), (c.logged, c.crashed, c.tasks.length))) =
      some ((LoopPc.drain, [1, 2]), (1, false, 1)) := by
  decide

/-! ## The cursor at the end of a crawl -/

/-- The state `stoppingCrawl` is reached from the start of a crawl. -/
theorem stoppingCrawl_reached :
    run updateConfig sampleWorld sampleUser Crawl.init
      [Sched.loopCheck, Sched.loopTick, Sched.loopGet (FetchOutcome.response "page-103-102-99"),
       Sched.task 0, Sched.task 0, Sched.task 0, Sched.task 0, Sched.task 0, Sched.task 0,
       Sched.task 0, Sched.task 0, Sched.loopCheck] = some stoppingCrawl := by
  rfl

theorem taskStep_exited (cfg : Config) (w : World) (user : blog) (sh : Shared) (t : TaskPc)
    (h : t.isExited = true) : taskStep cfg w user sh t = none := by
  cases t <;> simp [TaskPc.isExited] at h
  rfl

theorem task_of_all_exited (tasks : List TaskPc) (k : Nat) (t : TaskPc)
    (hall : tasks.all TaskPc.isExited = true) (hk : tasks[k]? = some t) :
    t.isExited = true := by
  rw [List.all_eq_true] at hall
  exact hall t (List.getElem?_mem hk)

/-- The cursor is what the updates applied so far make of "0"; it is persisted only when
the crawl finishes, and then every goroutine has returned and the persisted value is the
cursor. -/
theorem cursor_invariant (cfg : Config) (w : World) (user : blog) (sched : List Sched)
    (c : Crawl) (h : run cfg w user Crawl.init sched = some c) :
    c.sh.highestID = (updatedPosts c.sh.hist).foldl updateHighestID "0" ∧
    (c.persisted ≠ none → c.pc = LoopPc.finished) ∧
    (c.pc = LoopPc.finished →
      c.persisted = some c.sh.highestID ∧ c.tasks.all TaskPc.isExited = true) := by
  refine run_invariant cfg w user
    (fun x => x.sh.highestID = (updatedPosts x.sh.hist).foldl updateHighestID "0" ∧
      (x.persisted ≠ none → x.pc = LoopPc.finished) ∧
      (x.pc = LoopPc.finished →
        x.persisted = some x.sh.highestID ∧ x.tasks.all TaskPc.isExited = true))
    ?_ sched Crawl.init c ⟨rfl, fun hp => absurd rfl hp, fun hp => by cases hp⟩ h
  intro x e x1 hx hs
  obtain ⟨hfold, hpers, hfin⟩ := hx
  obtain ⟨_, hcase⟩ := step_cases cfg w user x x1 e hs
  rcases hcase with ⟨_, hp, rfl⟩ | ⟨_, hp, _, rfl⟩ | ⟨_, hp, rfl⟩ | ⟨o, _, hp, rfl⟩ |
    ⟨_, hp, hall, rfl⟩ | ⟨k, t, _, hk, ⟨rfl, _⟩ | ⟨sh1, t1, ht, rfl⟩⟩
  · have hnone : x.persisted = none := by
      by_contra hne
      rw [hpers hne] at hp
      cases hp
    by_cases hd : x.sh.done = true
    · simp [hd, hfold, hnone]
    · simp [hd, hfold, hnone]
  · have hnone : x.persisted = none := by
      by_contra hne
      rw [hpers hne] at hp
      cases hp
    simp [hfold, hnone]
  · have hnone : x.persisted = none := by
      by_contra hne
      rw [hpers hne] at hp
      cases hp
    simp [hfold, hnone]
  · have hnone : x.persisted = none := by
      by_contra hne
      rw [hpers hne] at hp
      cases hp
    rcases fetchStep_cases w user x o with ⟨hf, _⟩ |
      ⟨url, _, ⟨_, hf⟩ | ⟨_, _, _, hf⟩ | ⟨_, _, _, _, _, hf⟩⟩
    · rw [hf]
      exact ⟨hfold, hpers, hfin⟩
    · rw [hf]
      simp [hfold, hnone, updatedPosts_append, updatedPosts]
    · rw [hf]
      simp [hfold, hnone, updatedPosts_append, updatedPosts]
    · rw [hf]
      simp [hfold, hnone, updatedPosts_append, updatedPosts]
  · exact ⟨hfold, fun _ => rfl, fun _ => ⟨rfl, hall⟩⟩
  · exact ⟨hfold, hpers, hfin⟩
  · have hnf : x.pc ≠ LoopPc.finished := by
      intro hp
      have hex := task_of_all_exited x.tasks k t (hfin hp).2 hk
      rw [taskStep_exited cfg w user x.sh t hex] at ht
      cases ht
    have hnone : x.persisted = none := by
      by_contra hne
      exact hnf (hpers hne)
    refine ⟨?_, fun hne => absurd hnone hne, fun hp => absurd hp hnf⟩
    rcases (taskStep_effect cfg w user _ _ _ _ ht).2.2 with ⟨h1, h2⟩ | ⟨p, h1, h2⟩
    · show sh1.highestID = _
      rw [h1, h2]
      exact hfold
    · show sh1.highestID = _
      rw [h1, h2, List.foldl_append, ← hfold]
      rfl

/-- C1 (amended): for every execution of `scrape` that reaches its end, in which the
posts whose cursor update was applied (at least one) all have identifiers that are
decimal strings of positive numbers an `int` holds, the cursor persisted at the end is
the identifier of one of those posts and no such post has a numerically larger
identifier, in whichever order the goroutines applied their updates. -/
theorem persisted_cursor_is_max (cfg : Config) (w : World) (user : blog) (sched : List Sched)
    (c : Crawl) (cur : String) (hrun : run cfg w user Crawl.init sched = some c)
    (hp : c.persisted = some cur) (hne : updatedPosts c.sh.hist ≠ [])
    (hids : ∀ p ∈ updatedPosts c.sh.hist, InIntRange p.ID ∧ 0 < decimalValue p.ID) :
    (∃ p ∈ updatedPosts c.sh.hist, cur = p.ID) ∧
    ∀ p ∈ updatedPosts c.sh.hist, decimalValue p.ID ≤ decimalValue cur := by
  obtain ⟨hfold, hpers, hfin⟩ := cursor_invariant cfg w user sched c hrun
  have hpc : c.pc = LoopPc.finished := hpers (by rw [hp]; simp)
  have hcur : cur = c.sh.highestID := by
    have := (hfin hpc).1
    rw [hp] at this
    exact Option.some.inj this
  rw [hcur, hfold]
  exact foldl_updateHighestID_max _ hne hids

/-- C1 (amended) on two pages whose goroutines interleave: the updates are applied in the
order "105", "98", "104" and "105" is persisted. -/
theorem persisted_cursor_is_max_witness :
    ∃ c, run fullConfig sampleWorld sampleUser Crawl.init
        [Sched.loopCheck, Sched.loopTick, Sched.loopGet (FetchOutcome.response "page-98"),
         Sched.loopCheck, Sched.loopTick, Sched.loopGet (FetchOutcome.response "page-105-104"),
         Sched.task 1, Sched.task 1, Sched.task 0, Sched.task 0, Sched.task 0, Sched.task 1,
         Sched.task 1, Sched.task 0, Sched.task 1, Sched.task 1, Sched.task 1, Sched.task 0,
         Sched.task 1, Sched.loopCheck, Sched.loopTick,
         Sched.loopGet (FetchOutcome.response "empty"), Sched.loopDrain] = some c ∧
      c.persisted = some "105" ∧
      (updatedPosts c.sh.hist).map Post.ID = ["105", "98", "104"] ∧
      ((∃ p ∈ updatedPosts c.sh.hist, "105" = p.ID) ∧
        ∀ p ∈ updatedPosts c.sh.hist, decimalValue p.ID ≤ decimalValue "105") := by
  obtain ⟨c, hc⟩ := Option.isSome_iff_exists.1
    (by decide : (run fullConfig sampleWorld sampleUser Crawl.init
        [Sched.loopCheck, Sched.loopTick, Sched.loopGet (FetchOutcome.response "page-98"),
         Sched.loopCheck, Sched.loopTick, Sched.loopGet (FetchOutcome.response "page-105-104"),
         Sched.task 1, Sched.task 1, Sched.task 0, Sched.task 0, Sched.task 0, Sched.task 1,
         Sched.task 1, Sched.task 0, Sched.task 1, Sched.task 1, Sched.task 1, Sched.task 0,
         Sched.task 1, Sched.loopCheck, Sched.loopTick,
         Sched.loopGet (FetchOutcome.response "empty"), Sched.loopDrain]).isSome = true)
  have hp : c.persisted = some "105" :=
    map_eq_of_eq_some _ c (fun x => x.persisted) _ hc (by decide)
  have hu : (updatedPosts c.sh.hist).map Post.ID = ["105", "98", "104"] :=
    map_eq_of_eq_some _ c (fun x => (updatedPosts x.sh.hist).map Post.ID) _ hc (by decide)
  have hne : updatedPosts c.sh.hist ≠ [] := by
    intro h0
    rw [h0] at hu
    cases hu
  have hids : ∀ p ∈ updatedPosts c.sh.hist, InIntRange p.ID ∧ 0 < decimalValue p.ID := by
    intro p hp
    have hmem : p.ID ∈ (updatedPosts c.sh.hist).map Post.ID := List.mem_map_of_mem _ hp
    rw [hu] at hmem
    simp only [List.mem_cons, List.mem_singleton, List.not_mem_nil, or_false] at hmem
    rcases hmem with h | h | h <;> rw [h] <;> decide
  exact ⟨c, hc, hp, hu,
    persisted_cursor_is_max fullConfig sampleWorld sampleUser _ c "105" hc hp hne hids⟩

/-- C1 as stated fails for identifiers no `int` holds: the page holds the posts
"9223372036854775809" and "9223372036854775808", both decimal strings of positive
numbers; both updates are applied, and the cursor persisted at the end is the second,
smaller one, because `Atoi` reads both as the largest `int`. -/
theorem persisted_cursor_not_max :
    IsDecimal "9223372036854775809" ∧ IsDecimal "9223372036854775808" ∧
    0 < decimalValue "9223372036854775808" ∧
    decimalValue "9223372036854775808" < decimalValue "9223372036854775809" ∧
    (run fullConfig sampleWorld sampleUser Crawl.init
        [Sched.loopCheck, Sched.loopTick, Sched.loopGet (FetchOutcome.response "page-big"),
         Sched.task 0, Sched.task 0, Sched.task 0, Sched.task 0, Sched.task 0, Sched.task 0,
         Sched.task 0, Sched.task 0, Sched.loopCheck,
         Sched.loopTick, Sched.loopGet (FetchOutcome.response "empty"), Sched.loopDrain]).map
      (fun c => (c.persisted, (updatedPosts c.sh.hist).map Post.ID)) =
      some (some "9223372036854775808", ["9223372036854775809", "9223372036854775808"]) := by
  decide

/-! ## The order of page requests -/

theorem pagingOrder_snoc (i j : Int) (log : List (Int × Option (List Post)))
    (o : Option (List Post)) (hord : PagingOrder i log) (hnext : nextIndex i log = some j) :
    PagingOrder i (log ++ [(j, o)]) ∧
    nextIndex i (log ++ [(j, o)]) =
      (match o with
        | none => some j
        | some [] => none
        | some (_ :: _) => some (j + 1)) := by
  induction log generalizing i with
  | nil =>
    simp only [nextIndex, Option.some.injEq] at hnext
    subst hnext
    match o with
    | none => simp [PagingOrder, nextIndex]
    | some [] => simp [PagingOrder, nextIndex]
    | some (_ :: _) => simp [PagingOrder, nextIndex]
  | cons x xs ih =>
    obtain ⟨k, page⟩ := x
    match page with
    | none =>
      simp only [PagingOrder, nextIndex] at hord hnext
      have := ih i hord.2 hnext
      simp only [List.cons_append, PagingOrder, nextIndex]
      exact ⟨⟨hord.1, this.1⟩, this.2⟩
    | some [] => simp [nextIndex] at hnext
    | some (_ :: _) =>
      simp only [PagingOrder, nextIndex] at hord hnext
      have := ih (i + 1) hord.2 hnext
      simp only [List.cons_append, PagingOrder, nextIndex]
      exact ⟨⟨hord.1, this.1⟩, this.2⟩

theorem pagingOrder_adjacent (i : Int) (pre post : List (Int × Option (List Post)))
    (j k : Int) (o o2 : Option (List Post))
    (hord : PagingOrder i (pre ++ (j, o) :: (k, o2) :: post)) :
    (o = none → k = j) ∧ (∀ ps, o = some ps → ps ≠ [] ∧ k = j + 1) := by
  induction pre generalizing i with
  | nil =>
    match o with
    | none =>
      simp only [List.nil_append, PagingOrder] at hord
      obtain ⟨h1, h2⟩ := hord
      have hk : k = i := by
        match o2 with
        | none => exact h2.1
        | some [] => exact h2.1
        | some (_ :: _) => exact h2.1
      exact ⟨fun _ => by rw [hk, h1], fun ps hps => by cases hps⟩
    | some [] =>
      simp [PagingOrder] at hord
    | some (q :: qs) =>
      simp only [List.nil_append, PagingOrder] at hord
      obtain ⟨h1, h2⟩ := hord
      have hk : k = i + 1 := by
        match o2 with
        | none => exact h2.1
        | some [] => exact h2.1
        | some (_ :: _) => exact h2.1
      refine ⟨fun h => (by cases h), fun ps hps => ?_⟩
      cases hps
      exact ⟨by simp, by rw [hk, h1]⟩
  | cons x xs ih =>
    obtain ⟨m, page⟩ := x
    match page with
    | none =>
      simp only [List.cons_append, PagingOrder] at hord
      exact ih i hord.2
    | some [] =>
      simp [PagingOrder] at hord
    | some (_ :: _) =>
      simp only [List.cons_append, PagingOrder] at hord
      exact ih (i + 1) hord.2

theorem pagingOrder_head (i j : Int) (o : Option (List Post))
    (rest : List (Int × Option (List Post))) (hord : PagingOrder i ((j, o) :: rest)) : j = i := by
  match o with
  | none => exact hord.1
  | some [] => exact hord.1
  | some (_ :: _) => exact hord.1

/-- In every execution the log of requests is in paging order, and while the loop runs
the index it holds is the one the next request is due to carry. -/
theorem paging_invariant (cfg : Config) (w : World) (user : blog) (sched : List Sched)
    (c : Crawl) (h : run cfg w user Crawl.init sched = some c) :
    PagingOrder 1 (fetchedPages c.sh.hist) ∧
    ((c.pc = LoopPc.check ∨ c.pc = LoopPc.wait ∨ c.pc = LoopPc.request) →
      nextIndex 1 (fetchedPages c.sh.hist) = some c.i) := by
  refine run_invariant cfg w user
    (fun x => PagingOrder 1 (fetchedPages x.sh.hist) ∧
      ((x.pc = LoopPc.check ∨ x.pc = LoopPc.wait ∨ x.pc = LoopPc.request) →
        nextIndex 1 (fetchedPages x.sh.hist) = some x.i))
    ?_ sched Crawl.init c ⟨trivial, fun _ => rfl⟩ h
  intro x e x1 hx hs
  obtain ⟨hord, hnext⟩ := hx
  obtain ⟨_, hcase⟩ := step_cases cfg w user x x1 e hs
  rcases hcase with ⟨_, hp, rfl⟩ | ⟨_, hp, _, rfl⟩ | ⟨_, hp, rfl⟩ | ⟨o, _, hp, rfl⟩ |
    ⟨_, hp, hall, rfl⟩ | ⟨k, t, _, hk, ⟨rfl, _⟩ | ⟨sh1, t1, ht, rfl⟩⟩
  · have hn := hnext (Or.inl hp)
    by_cases hd : x.sh.done = true
    · simp [hd, hord]
    · simp [hd, hord, hn]
  · exact ⟨hord, fun hq => by rcases hq with hq | hq | hq <;> cases hq⟩
  · exact ⟨hord, fun _ => hnext (Or.inr (Or.inl hp))⟩
  · have hn := hnext (Or.inr (Or.inr hp))
    rcases fetchStep_cases w user x o with ⟨hf, _⟩ |
      ⟨url, _, ⟨_, hf⟩ | ⟨_, _, _, hf⟩ | ⟨_, p, ps, _, _, hf⟩⟩
    · rw [hf]
      exact ⟨hord, hnext⟩
    · rw [hf]
      have := pagingOrder_snoc 1 x.i _ none hord hn
      simp only [fetchedPages_append, fetchedPages]
      exact ⟨this.1, fun _ => by rw [this.2]; simp⟩
    · rw [hf]
      have := pagingOrder_snoc 1 x.i _ (some []) hord hn
      simp only [fetchedPages_append, fetchedPages]
      exact ⟨this.1, fun hq => by rcases hq with hq | hq | hq <;> cases hq⟩
    · rw [hf]
      have := pagingOrder_snoc 1 x.i _ (some (p :: ps)) hord hn
      simp only [fetchedPages_append, fetchedPages]
      exact ⟨this.1, fun _ => this.2⟩
  · exact ⟨hord, fun hq => by rcases hq with hq | hq | hq <;> cases hq⟩
  · exact ⟨hord, hnext⟩
  · have hf := (taskStep_effect cfg w user _ _ _ _ ht).1
    show PagingOrder 1 (fetchedPages sh1.hist) ∧ (_ → nextIndex 1 (fetchedPages sh1.hist) = _)
    rw [hf]
    exact ⟨hord, hnext⟩

theorem getElem?_split {α : Type} (l : List α) (k : Nat) (t : α) (h : l[k]? = some t) :
    ∃ a b, l = a ++ t :: b ∧ ∀ t1, l.set k t1 = a ++ t1 :: b := by
  induction l generalizing k with
  | nil => simp at h
  | cons x xs ih =>
    cases k with
    | zero =>
      simp only [List.getElem?_cons_zero, Option.some.injEq] at h
      subst h
      exact ⟨[], xs, rfl, fun t1 => rfl⟩
    | succ n =>
      simp only [List.getElem?_cons_succ] at h
      obtain ⟨a, b, hab, hset⟩ := ih n h
      exact ⟨x :: a, b, by rw [hab]; rfl, fun t1 => by simp [List.set, hset t1]⟩

theorem pending_of_all_exited (tasks : List TaskPc) (h : tasks.all TaskPc.isExited = true) :
    tasks.flatMap TaskPc.pending = [] := by
  induction tasks with
  | nil => rfl
  | cons t ts ih =>
    simp only [List.all_cons, Bool.and_eq_true] at h
    have ht : t.pending = [] := by
      cases t <;> simp [TaskPc.isExited] at h
      rfl
    simp [List.flatMap_cons, ht, ih h.2]

theorem dispatchedPosts_append (a b : List Event) :
    dispatchedPosts (a ++ b) = dispatchedPosts a ++ dispatchedPosts b := by
  simp [dispatchedPosts, fetchedPages_append]

theorem dispatchedPosts_fetch (i : Int) (url : URL) (page : Option (List Post)) :
    dispatchedPosts [Event.fetch i url page] = page.getD [] := by
  simp [dispatchedPosts, fetchedPages]

/-- With update mode off no goroutine leaves its page early: the posts entered into the
cursor so far, together with those the goroutines have still to enter, are the posts of
the pages fetched so far. -/
theorem pending_invariant (cfg : Config) (w : World) (user : blog) (sched : List Sched)
    (c : Crawl) (hmode : cfg.updateMode = false)
    (h : run cfg w user Crawl.init sched = some c) :
    List.Perm (updatedPosts c.sh.hist ++ c.tasks.flatMap TaskPc.pending)
      (dispatchedPosts c.sh.hist) := by
  refine run_invariant cfg w user
    (fun x => List.Perm (updatedPosts x.sh.hist ++ x.tasks.flatMap TaskPc.pending)
      (dispatchedPosts x.sh.hist))
    ?_ sched Crawl.init c (List.Perm.refl _) h
  intro x e x1 hx hs
  obtain ⟨_, hcase⟩ := step_cases cfg w user x x1 e hs
  rcases hcase with ⟨_, hp, rfl⟩ | ⟨_, hp, _, rfl⟩ | ⟨_, hp, rfl⟩ | ⟨o, _, hp, rfl⟩ |
    ⟨_, hp, hall, rfl⟩ | ⟨k, t, _, hk, ⟨rfl, _⟩ | ⟨sh1, t1, ht, rfl⟩⟩
  · by_cases hd : x.sh.done = true
    · simpa [hd] using hx
    · simpa [hd] using hx
  · exact hx
  · exact hx
  · rcases fetchStep_cases w user x o with ⟨hf, _⟩ |
      ⟨url, _, ⟨_, hf⟩ | ⟨_, _, _, hf⟩ | ⟨_, p, ps, _, _, hf⟩⟩
    · rw [hf]
      exact hx
    · rw [hf]
      simp only [updatedPosts_append, updatedPosts, dispatchedPosts_append, List.append_nil,
        dispatchedPosts_fetch, Option.getD_none]
      exact hx
    · rw [hf]
      simp only [updatedPosts_append, updatedPosts, dispatchedPosts_append, List.append_nil,
        dispatchedPosts_fetch, Option.getD_some]
      exact hx
    · rw [hf]
      simp only [updatedPosts_append, updatedPosts, dispatchedPosts_append, List.append_nil,
        List.flatMap_append, List.flatMap_cons, List.flatMap_nil, TaskPc.pending,
        dispatchedPosts_fetch, Option.getD_some]
      rw [← List.append_assoc]
      exact List.Perm.append_right _ hx
  · exact hx
  · exact hx
  · obtain ⟨a, b, hab, hset⟩ := getElem?_split x.tasks k t hk
    have hdisp : dispatchedPosts sh1.hist = dispatchedPosts x.sh.hist := by
      simp only [dispatchedPosts, (taskStep_effect cfg w user _ _ _ _ ht).1]
    show List.Perm (updatedPosts sh1.hist ++ (x.tasks.set k t1).flatMap TaskPc.pending)
      (dispatchedPosts sh1.hist)
    rw [hdisp, hset t1]
    rw [hab] at hx
    simp only [List.flatMap_append, List.flatMap_cons] at hx ⊢
    rcases taskStep_cases cfg w user x.sh sh1 t t1 ht with
      ⟨_, _, rfl, rfl, rfl⟩ | ⟨_, rfl, rfl, rfl⟩ | ⟨_, p, r, rfl, rfl, rfl⟩ |
      ⟨l, p, _, rfl, hst, _, _⟩ | ⟨_, _, _, _, rfl, _, _, rfl, rfl⟩ |
      ⟨_, _, _, rfl, rfl, rfl⟩ | ⟨_, q, u, _, _, rfl, rfl, rfl⟩
    · exact hx
    · exact hx
    · simp only [applyUpdate, updatedPosts_append, updatedPosts, TaskPc.pending] at hx ⊢
      refine List.Perm.trans ?_ hx
      simp only [List.append_assoc]
      refine List.Perm.append_left _ ?_
      simp only [← List.append_assoc]
      refine List.Perm.append_right _ ?_
      simp only [List.singleton_append, List.cons_append, List.append_assoc, List.nil_append]
      exact (List.perm_middle).symm
    · simp [stopTest, hmode] at hst
    · simpa [updatedPosts_append, updatedPosts, TaskPc.pending] using hx
    · exact hx
    · rw [(enqueueURL_frame cfg w user q x.sh u).2.2]
      exact hx

/-- C8: with update mode off, in every execution of `scrape`: the first page request
carries index 1; a request that follows a transport failure carries the same index; a
request that follows a fetched page finds that page to hold at least one post and
carries the next index, so no request follows a fetched page without posts; and when
page 1 returns two posts with identifiers "105" and "104" and page 2 returns none,
these two requests, with indices 1 and 2, are all there are, and the cursor persisted
when the crawl finishes is "105". -/
theorem paging_order (cfg : Config) (w : World) (user : blog) (sched : List Sched) (c : Crawl)
    (hmode : cfg.updateMode = false) (hrun : run cfg w user Crawl.init sched = some c) :
    (∀ j o rest, fetchedPages c.sh.hist = (j, o) :: rest → j = 1) ∧
    (∀ pre j o k o2 post, fetchedPages c.sh.hist = pre ++ (j, o) :: (k, o2) :: post →
      (o = none → k = j) ∧ (∀ ps, o = some ps → ps ≠ [] ∧ k = j + 1)) ∧
    (∀ p1 p2 i1 i2 rest,
      fetchedPages c.sh.hist = (i1, some [p1, p2]) :: (i2, some []) :: rest →
      p1.ID = "105" → p2.ID = "104" →
      rest = [] ∧ i1 = 1 ∧ i2 = 2 ∧
        (c.pc = LoopPc.finished → c.persisted = some "105")) := by
  obtain ⟨hord, _⟩ := paging_invariant cfg w user sched c hrun
  refine ⟨?_, ?_, ?_⟩
  · intro j o rest hlog
    rw [hlog] at hord
    exact pagingOrder_head 1 j o rest hord
  · intro pre j o k o2 post hlog
    rw [hlog] at hord
    exact pagingOrder_adjacent 1 pre post j k o o2 hord
  · intro p1 p2 i1 i2 rest hlog h1 h2
    have hord2 := hord
    rw [hlog] at hord2
    simp only [PagingOrder] at hord2
    obtain ⟨hi1, hi2, hrest⟩ := hord2
    refine ⟨hrest, hi1, by rw [hi2]; rfl, ?_⟩
    intro hfin
    obtain ⟨hfold, _, hfinished⟩ := cursor_invariant cfg w user sched c hrun
    obtain ⟨hpers, hall⟩ := hfinished hfin
    have hperm := pending_invariant cfg w user sched c hmode hrun
    rw [pending_of_all_exited _ hall, List.append_nil] at hperm
    have hdisp : dispatchedPosts c.sh.hist = [p1, p2] := by
      simp [dispatchedPosts, hlog, hrest]
    rw [hdisp] at hperm
    have hmem : ∀ p, p ∈ updatedPosts c.sh.hist ↔ p = p1 ∨ p = p2 := by
      intro p
      rw [hperm.mem_iff]
      simp
    have hne : updatedPosts c.sh.hist ≠ [] := by
      intro h0
      have := (hmem p1).2 (Or.inl rfl)
      rw [h0] at this
      cases this
    have hr1 : InIntRange "105" ∧ 0 < decimalValue "105" := by decide
    have hr2 : InIntRange "104" ∧ 0 < decimalValue "104" := by decide
    have hids : ∀ p ∈ updatedPosts c.sh.hist, InIntRange p.ID ∧ 0 < decimalValue p.ID := by
      intro p hp
      rcases (hmem p).1 hp with rfl | rfl
      · rw [h1]; exact hr1
      · rw [h2]; exact hr2
    obtain ⟨⟨p, hp, hcur⟩, hmax⟩ := foldl_updateHighestID_max _ hne hids
    rw [hpers, hfold]
    congr 1
    rcases (hmem p).1 hp with rfl | rfl
    · rw [hcur, h1]
    · have h3 := hmax p1 ((hmem p1).2 (Or.inl rfl))
      rw [hcur, h1, h2] at h3
      exact absurd h3 (by decide)

/-- C8 on a run with a transport failure (indices 1, 1, 2) and on the example of the
specification run to its end (indices 1, 2, cursor "105"). -/
theorem paging_order_witness :
    (run fullConfig sampleWorld sampleUser Crawl.init
        [Sched.loopCheck, Sched.loopTick, Sched.loopGet FetchOutcome.transportError,
         Sched.loopCheck, Sched.loopTick, Sched.loopGet (FetchOutcome.response "page-98"),
         Sched.loopCheck, Sched.loopTick, Sched.loopGet (FetchOutcome.response "empty")]).map
      (fun c => fetchedIndices c.sh.hist) = some [1, 1, 2] ∧
    ∃ c, run fullConfig sampleWorld sampleUser Crawl.init
        [Sched.loopCheck, Sched.loopTick, Sched.loopGet (FetchOutcome.response "page-105-104"),
         Sched.loopCheck, Sched.task 0, Sched.task 0, Sched.loopTick,
         Sched.loopGet (FetchOutcome.response "empty"),
         Sched.task 0, Sched.task 0, Sched.task 0, Sched.task 0, Sched.task 0, Sched.task 0,
         Sched.loopDrain] = some c ∧
      fetchedIndices c.sh.hist = [1, 2] ∧ c.pc = LoopPc.finished ∧
      c.persisted = some "105" ∧
      (∀ j o rest, fetchedPages c.sh.hist = (j, o) :: rest → j = 1) ∧
      (∀ pre j o k o2 post, fetchedPages c.sh.hist = pre ++ (j, o) :: (k, o2) :: post →
        (o = none → k = j) ∧ (∀ ps, o = some ps → ps ≠ [] ∧ k = j + 1)) := by
  refine ⟨by decide, ?_⟩
  obtain ⟨c, hc⟩ := Option.isSome_iff_exists.1
    (by decide : (run fullConfig sampleWorld sampleUser Crawl.init
        [Sched.loopCheck, Sched.loopTick, Sched.loopGet (FetchOutcome.response "page-105-104"),
         Sched.loopCheck, Sched.task 0, Sched.task 0, Sched.loopTick,
         Sched.loopGet (FetchOutcome.response "empty"),
         Sched.task 0, Sched.task 0, Sched.task 0, Sched.task 0, Sched.task 0, Sched.task 0,
         Sched.loopDrain]).isSome = true)
  have hfi : fetchedIndices c.sh.hist = [1, 2] :=
    map_eq_of_eq_some _ c (fun x => fetchedIndices x.sh.hist) _ hc (by decide)
  have hpc : c.pc = LoopPc.finished :=
    map_eq_of_eq_some _ c (fun x => x.pc) _ hc (by decide)
  have hp : c.persisted = some "105" :=
    map_eq_of_eq_some _ c (fun x => x.persisted) _ hc (by decide)
  have hthm := paging_order fullConfig sampleWorld sampleUser _ c rfl hc
  exact ⟨c, hc, hfi, hpc, hp, hthm.1, hthm.2.1⟩

/-! ## A goroutine run on its own is the extraction loop -/

theorem getElem?_set_self_of_some {α : Type} (l : List α) (k : Nat) (t t1 : α)
    (h : l[k]? = some t) : (l.set k t1)[k]? = some t1 := by
  obtain ⟨hlt, _⟩ := List.getElem?_eq_some_iff.1 h
  simp [List.getElem?_set, hlt]

/-- The loop over the URLs of a post, step by step. -/
theorem send_steps (cfg : Config) (w : World) (user : blog) (k : Nat) (l : Int) (p : Post)
    (rest : List Post) (URLs : List String) (c : Crawl) (hcr : c.crashed = false)
    (hk : c.tasks[k]? = some (TaskPc.send l p URLs rest)) :
    run cfg w user c (List.replicate URLs.length (Sched.task k)) =
      some { c with
        sh := enqueueURLs cfg w user p c.sh URLs
        tasks := c.tasks.set k (TaskPc.send l p [] rest) } := by
  induction URLs generalizing c with
  | nil =>
    obtain ⟨a, b, hab, hset⟩ := getElem?_split c.tasks k _ hk
    have : c.tasks.set k (TaskPc.send l p [] rest) = c.tasks := by rw [hset, ← hab]
    simp [run, enqueueURLs, this]
  | cons u us ih =>
    have hs : step cfg w user c (Sched.task k) =
        some { c with
          sh := enqueueURL cfg w user p c.sh u
          tasks := c.tasks.set k (TaskPc.send l p us rest) } := by
      simp [step, hcr, hk, taskStep, pure, Except.pure]
    rw [List.length_cons, List.replicate_succ, run_cons_of_step _ _ _ _ _ _ _ hs]
    have := ih
      { c with
        sh := enqueueURL cfg w user p c.sh u
        tasks := c.tasks.set k (TaskPc.send l p us rest) } (by exact hcr)
      (by exact getElem?_set_self_of_some _ _ _ _ hk)
    rw [this]
    simp [enqueueURLs, List.set_set]

/-- Scheduled on its own from the head of its loop, an extraction goroutine whose loop
returns, returns: it reaches its end after finitely many steps and leaves the shared
state the loop `postLoop` computes. -/
theorem task_runs_postLoop (cfg : Config) (w : World) (user : blog) (k : Nat) (l : Int)
    (posts : List Post) (c : Crawl) (sh1 : Shared) (hcr : c.crashed = false)
    (hk : c.tasks[k]? = some (TaskPc.update l posts))
    (hbig : postLoop cfg w user l posts c.sh = Except.ok sh1) :
    ∃ n, run cfg w user c (List.replicate n (Sched.task k)) =
      some { c with sh := sh1, tasks := c.tasks.set k TaskPc.exited } := by
  induction posts generalizing c with
  | nil =>
    refine ⟨1, ?_⟩
    simp only [postLoop, pure, Except.pure, Except.ok.injEq] at hbig
    subst hbig
    simp [run, step, hcr, hk, taskStep, pure, Except.pure]
  | cons p rest ih =>
    have hs1 : step cfg w user c (Sched.task k) =
        some { c with
          sh := applyUpdate c.sh p
          tasks := c.tasks.set k (TaskPc.check l p rest) } := by
      simp [step, hcr, hk, taskStep, pure, Except.pure]
    have hk1 := getElem?_set_self_of_some c.tasks k _ (TaskPc.check l p rest) hk
    unfold postLoop at hbig
    by_cases hst : stopTest cfg l p = true
    · simp only [hst, if_true, pure, Except.pure, Except.ok.injEq] at hbig
      subst hbig
      refine ⟨2, ?_⟩
      rw [show (2 : Nat) = 1 + 1 from rfl, List.replicate_succ,
        run_cons_of_step _ _ _ _ _ _ _ hs1]
      simp [run, step, hcr, hk1, taskStep, hst, pure, Except.pure, List.set_set]
    · have hst2 : stopTest cfg l p = false := by simpa using hst
      simp only [hst2, Bool.false_eq_true, if_false] at hbig
      unfold extractPost at hbig
      cases hp : parseDataForFiles cfg w p with
      | error e => simp [hp, bind, Except.bind] at hbig
      | ok URLs =>
        simp only [hp, bind, Except.bind, pure, Except.pure] at hbig
        have hs2 : step cfg w user
            { c with
              sh := applyUpdate c.sh p
              tasks := c.tasks.set k (TaskPc.check l p rest) } (Sched.task k) =
            some { c with
              sh := { applyUpdate c.sh p with
                      hist := (applyUpdate c.sh p).hist ++ [Event.extract p] }
              tasks := c.tasks.set k (TaskPc.send l p URLs rest) } := by
          simp [step, hcr, hk1, taskStep, hst2, hp, Except.map, List.set_set]
        have hk2 := getElem?_set_self_of_some c.tasks k _ (TaskPc.send l p URLs rest) hk
        have hs3 := send_steps cfg w user k l p rest URLs
          { c with
            sh := { applyUpdate c.sh p with
                    hist := (applyUpdate c.sh p).hist ++ [Event.extract p] }
            tasks := c.tasks.set k (TaskPc.send l p URLs rest) } (by exact hcr) (by exact hk2)
        simp only [List.set_set] at hs3
        have hk3 := getElem?_set_self_of_some c.tasks k _ (TaskPc.send l p [] rest) hk
        have hs4 : step cfg w user
            { c with
              sh := enqueueURLs cfg w user p
                { applyUpdate c.sh p with
                  hist := (applyUpdate c.sh p).hist ++ [Event.extract p] } URLs
              tasks := c.tasks.set k (TaskPc.send l p [] rest) } (Sched.task k) =
            some { c with
              sh := enqueueURLs cfg w user p
                { applyUpdate c.sh p with
                  hist := (applyUpdate c.sh p).hist ++ [Event.extract p] } URLs
              tasks := c.tasks.set k (TaskPc.update l rest) } := by
          simp [step, hcr, hk3, taskStep, pure, Except.pure, List.set_set]
        have hk4 := getElem?_set_self_of_some c.tasks k _ (TaskPc.update l rest) hk
        obtain ⟨n, hn⟩ := ih
          { c with
            sh := enqueueURLs cfg w user p
              { applyUpdate c.sh p with
                hist := (applyUpdate c.sh p).hist ++ [Event.extract p] } URLs
            tasks := c.tasks.set k (TaskPc.update l rest) } (by exact hcr) (by exact hk4)
          (by exact hbig)
        simp only [List.set_set] at hn
        refine ⟨1 + (1 + (URLs.length + (1 + n))), ?_⟩
        rw [List.replicate_add, run_append]
        simp only [List.replicate_one, run, hs1, Option.bind]
        rw [List.replicate_add, run_append]
        simp only [List.replicate_one, run, hs2, Option.bind]
        rw [List.replicate_add, run_append, hs3]
        simp only [Option.bind]
        rw [List.replicate_add, run_append]
        simp only [List.replicate_one, run, hs4, Option.bind]
        exact hn

/-- The goroutine of a page, scheduled on its own from its start, does what
`extractionTask` computes: when `extractionTask` returns a shared state, finitely many
steps of the goroutine reach its end with that state. -/
theorem task_runs_extractionTask (cfg : Config) (w : World) (user : blog) (k : Nat)
    (posts : List Post) (c : Crawl) (sh1 : Shared) (hcr : c.crashed = false)
    (hk : c.tasks[k]? = some (TaskPc.start posts))
    (hbig : extractionTask cfg w user posts c.sh = Except.ok sh1) :
    ∃ n, run cfg w user c (List.replicate n (Sched.task k)) =
      some { c with sh := sh1, tasks := c.tasks.set k TaskPc.exited } := by
  unfold extractionTask at hbig
  cases hv : checkFatalError (valueOf (Atoi user.lastPostID)) with
  | error e => simp [hv, bind, Except.bind] at hbig
  | ok l =>
    simp only [hv, bind, Except.bind] at hbig
    have hs : step cfg w user c (Sched.task k) =
        some { c with tasks := c.tasks.set k (TaskPc.update l posts) } := by
      simp [step, hcr, hk, taskStep, hv, Except.map]
    have hk1 := getElem?_set_self_of_some c.tasks k _ (TaskPc.update l posts) hk
    obtain ⟨n, hn⟩ := task_runs_postLoop cfg w user k l posts
      { c with tasks := c.tasks.set k (TaskPc.update l posts) } sh1 (by exact hcr)
      (by exact hk1) (by exact hbig)
    simp only [List.set_set] at hn
    refine ⟨1 + n, ?_⟩
    rw [List.replicate_add, run_append]
    simp only [List.replicate_one, run, hs, Option.bind]
    exact hn

/-- The goroutine of the incremental example page, run on its own to its end. -/
theorem task_runs_extractionTask_witness :
    ∃ n, run updateConfig sampleWorld sampleUser
        { Crawl.init with tasks := [TaskPc.start examplePage] }
        (List.replicate n (Sched.task 0)) =
      some { Crawl.init with
        sh := { highestID := "103", done := true,
                imageChannel := [Image.mk "blog" "http://x/new.jpg" 0], alreadyExists := 1,
                totalFound := 1, progressTotal := 1,
                hist := [Event.update (photoPost "103" "http://x/new.jpg" ""),
                         Event.extract (photoPost "103" "http://x/new.jpg" ""),
                         Event.update (photoPost "102" "http://x/old.jpg" ""),
                         Event.extract (photoPost "102" "http://x/old.jpg" ""),
                         Event.update (photoPost "99" "http://x/older.jpg" ""),
                         Event.stop] }
        tasks := [TaskPc.exited] } :=
  task_runs_extractionTask updateConfig sampleWorld sampleUser 0 examplePage
    { Crawl.init with tasks := [TaskPc.start examplePage] } _ rfl rfl rfl

/-! ## Two invariants of the data model -/

/-- The cursor never goes down under the comparison the code makes: after an update its
`Atoi` value is at least what it was, for any strings whatever. -/
theorem updateHighestID_monotone (highestID : String) (post : Post) :
    (Atoi highestID).1 ≤ (Atoi (updateHighestID highestID post)).1 := by
  unfold updateHighestID
  by_cases h : (Atoi post.ID).1 ≥ (Atoi highestID).1
  · rw [if_pos h]
    exact h
  · rw [if_neg h]

/-- In every execution the stop signal is fired at most once: the record holds one stop
event when `done` is closed and none when it is open. -/
theorem stop_fires_once (cfg : Config) (w : World) (user : blog) (sched : List Sched)
    (c : Crawl) (h : run cfg w user Crawl.init sched = some c) :
    stopCount c.sh.hist = if c.sh.done then 1 else 0 := by
  refine run_invariant cfg w user
    (fun x => stopCount x.sh.hist = if x.sh.done then 1 else 0) ?_ sched Crawl.init c rfl h
  intro x e x1 hx hs
  obtain ⟨_, hcase⟩ := step_cases cfg w user x x1 e hs
  rcases hcase with ⟨_, hp, rfl⟩ | ⟨_, hp, _, rfl⟩ | ⟨_, hp, rfl⟩ | ⟨o, _, hp, rfl⟩ |
    ⟨_, hp, hall, rfl⟩ | ⟨k, t, _, hk, ⟨rfl, _⟩ | ⟨sh1, t1, ht, rfl⟩⟩
  · by_cases hd : x.sh.done = true
    · simpa [hd] using hx
    · simpa [hd] using hx
  · exact hx
  · exact hx
  · rcases fetchStep_cases w user x o with ⟨hf, _⟩ |
      ⟨url, _, ⟨_, hf⟩ | ⟨_, _, _, hf⟩ | ⟨_, p, ps, _, _, hf⟩⟩
    · rw [hf]
      exact hx
    · rw [hf]
      simpa [stopCount_append, stopCount] using hx
    · rw [hf]
      simpa [stopCount_append, stopCount] using hx
    · rw [hf]
      simpa [stopCount_append, stopCount] using hx
  · exact hx
  · exact hx
  · show stopCount sh1.hist = if sh1.done then 1 else 0
    rcases taskStep_cases cfg w user x.sh sh1 t t1 ht with
      ⟨_, _, _, rfl, _⟩ | ⟨_, _, rfl, _⟩ | ⟨_, p, _, _, rfl, _⟩ | ⟨_, _, _, _, _, rfl, _⟩ |
      ⟨_, _, _, _, _, _, _, rfl, _⟩ | ⟨_, _, _, _, rfl, _⟩ | ⟨_, q, u, _, _, _, rfl, _⟩
    · exact hx
    · exact hx
    · simpa [applyUpdate, stopCount_append, stopCount] using hx
    · unfold fireStop
      by_cases hd : x.sh.done = true
      · simpa [hd] using hx
      · simp only [hd, Bool.false_eq_true, if_false] at hx ⊢
        simp [stopCount_append, stopCount, hx]
    · simpa [stopCount_append, stopCount] using hx
    · exact hx
    · rw [(enqueueURL_frame cfg w user q x.sh u).2.2, (enqueueURL_frame cfg w user q x.sh u).2.1]
      exact hx

/-- Two goroutines both reach a post at or below the cursor; the signal is fired once. -/
theorem stop_fires_once_witness :
    ∃ c, run updateConfig sampleWorld sampleUser Crawl.init
        [Sched.loopCheck, Sched.loopTick, Sched.loopGet (FetchOutcome.response "page-103-102-99"),
         Sched.loopCheck, Sched.loopTick, Sched.loopGet (FetchOutcome.response "page-98"),
         Sched.task 1, Sched.task 1, Sched.task 1, Sched.task 0, Sched.task 0, Sched.task 0,
         Sched.task 0, Sched.task 0, Sched.task 0, Sched.task 0, Sched.task 0,
         Sched.task 0] = some c ∧
      c.sh.done = true ∧ c.tasks.all TaskPc.isExited = true ∧
      stopCount c.sh.hist = if c.sh.done then 1 else 0 := by
  obtain ⟨c, hc⟩ := Option.isSome_iff_exists.1
    (by decide : (run updateConfig sampleWorld sampleUser Crawl.init
        [Sched.loopCheck, Sched.loopTick, Sched.loopGet (FetchOutcome.response "page-103-102-99"),
         Sched.loopCheck, Sched.loopTick, Sched.loopGet (FetchOutcome.response "page-98"),
         Sched.task 1, Sched.task 1, Sched.task 1, Sched.task 0, Sched.task 0, Sched.task 0,
         Sched.task 0, Sched.task 0, Sched.task 0, Sched.task 0, Sched.task 0,
         Sched.task 0]).isSome = true)
  have hd : c.sh.done = true :=
    map_eq_of_eq_some _ c (fun x => x.sh.done) _ hc (by decide)
  have ha : c.tasks.all TaskPc.isExited = true :=
    map_eq_of_eq_some _ c (fun x => x.tasks.all TaskPc.isExited) _ hc (by decide)
  exact ⟨c, hc, hd, ha, stop_fires_once updateConfig sampleWorld sampleUser _ c hc⟩

end TumblrDownloader
